import Mathlib

set_option maxRecDepth 100000
set_option maxHeartbeats 4000000

/-!
Verification of the sudoku solving engine (`src/game.rs`).

The Rust `Game` struct holds a 9×9 board of `Option<CellValue>`, a per-cell
possibility array `cell_poss : [[[bool; 9]; 9]; 9]`, and occupancy flag
arrays for columns, rows and 3×3 squares.  We embed it shallowly: each
fixed-size array becomes a function out of `Fin 9`, and a `CellValue`
(a digit 1..=9) is represented the way the Rust code indexes with it,
namely by `usize::from(cv) = cv - 1 : Fin 9`.  All mutating methods become
pure functions `Game → Game`; `panic!`/`expect`/`unwrap`/`assert!` failure
is modelled by `Option` (`none` = abnormal termination).
-/

/-- A cell value: digit `d ∈ 1..=9`, represented by `d - 1 : Fin 9`,
exactly as the Rust code indexes its arrays via `usize::from(cv)`. -/
abbrev CellValue := Fin 9

/-- `CellValue::new(n)`: `None` if `n == 0 || n > 9`, else the digit `n`. -/
def CellValue.new (n : Nat) : Option CellValue :=
  if h : n = 0 ∨ 9 < n then none else some ⟨n - 1, by omega⟩

/-- The solver state, mirroring the Rust `Game` struct field by field. -/
structure Game where
  board : Fin 9 → Fin 9 → Option CellValue
  cell_poss : Fin 9 → Fin 9 → CellValue → Bool
  cols_flags : Fin 9 → CellValue → Bool
  rows_flags : Fin 9 → CellValue → Bool
  sqrs_flags : Fin 9 → CellValue → Bool

instance : DecidableEq Game := fun g1 g2 =>
  decidable_of_iff
    (g1.board = g2.board ∧ g1.cell_poss = g2.cell_poss ∧ g1.cols_flags = g2.cols_flags ∧
      g1.rows_flags = g2.rows_flags ∧ g1.sqrs_flags = g2.sqrs_flags)
    (by cases g1; cases g2; simp [Game.mk.injEq])

/-- `Game::sqrs_ind`: `3 * (row / 3) + col / 3`. -/
def sqrs_ind (row col : Fin 9) : Fin 9 :=
  ⟨3 * (row.val / 3) + col.val / 3, by omega⟩

/-- Row-major list of all 81 cells, in the order of `Game::iter` /
`Game::iter_cells` (`(0..9).flat_map(|y| (0..9).map(move |x| (y, x)))`). -/
def allCells : List (Fin 9 × Fin 9) :=
  (List.finRange 9).flatMap fun y => (List.finRange 9).map fun x => (y, x)

/-- First loop of `update_poss_from_flags`: recompute possibilities of every
unassigned cell in the affected row from the occupancy flags. -/
def Game.update_poss_row (g : Game) (row : Fin 9) : Game :=
  { g with cell_poss := fun y x i =>
      if y = row ∧ g.board y x = none then
        !(g.rows_flags y i || g.cols_flags x i || g.sqrs_flags (sqrs_ind y x) i)
      else g.cell_poss y x i }

/-- Second loop of `update_poss_from_flags`: the affected column, less the
cell in the affected row (`.filter(|&(y, _)| y != row)`). -/
def Game.update_poss_col (g : Game) (row col : Fin 9) : Game :=
  { g with cell_poss := fun y x i =>
      if x = col ∧ y ≠ row ∧ g.board y x = none then
        !(g.rows_flags y i || g.cols_flags x i || g.sqrs_flags (sqrs_ind y x) i)
      else g.cell_poss y x i }

/-- Third loop of `update_poss_from_flags`: the remaining cells of the 3×3
group (`y` in `rs..rs+3` with `y ≠ row`, `x` in `cs..cs+3` with `x ≠ col`). -/
def Game.update_poss_sqr (g : Game) (row col : Fin 9) : Game :=
  { g with cell_poss := fun y x i =>
      if (y.val / 3 = row.val / 3 ∧ x.val / 3 = col.val / 3) ∧ y ≠ row ∧ x ≠ col ∧
          g.board y x = none then
        !(g.rows_flags y i || g.cols_flags x i || g.sqrs_flags (sqrs_ind y x) i)
      else g.cell_poss y x i }

/-- `Game::update_poss_from_flags`: the three loops in source order.  Each
loop reads only `board` and the flag arrays (which none of them writes), and
they write disjoint sets of cells, so sequential composition is faithful. -/
def Game.update_poss_from_flags (g : Game) (row col : Fin 9) : Game :=
  ((g.update_poss_row row).update_poss_col row col).update_poss_sqr row col

/-- `Game::set_cell`.  No-op if the cell already holds `cv`; otherwise store
the value, collapse the cell's possibility set to the singleton, raise the
three occupancy flags, and rerun `update_poss_from_flags`. -/
def Game.set_cell (g : Game) (row col : Fin 9) (cv : CellValue) : Game :=
  if g.board row col = some cv then g
  else
    let g1 : Game :=
      { board := fun y x => if y = row ∧ x = col then some cv else g.board y x
        cell_poss := fun y x i =>
          if y = row ∧ x = col then decide (i = cv) else g.cell_poss y x i
        cols_flags := fun c i => if c = col ∧ i = cv then true else g.cols_flags c i
        rows_flags := fun r i => if r = row ∧ i = cv then true else g.rows_flags r i
        sqrs_flags := fun s i => if s = sqrs_ind row col ∧ i = cv then true else g.sqrs_flags s i }
    g1.update_poss_from_flags row col

/-- `Game::unset_cell`.  Early return if the cell is unset; otherwise clear
the board entry and the three occupancy flags of its digit, and rerun
`update_poss_from_flags` (which also recomputes the cell's own possibilities,
since the cell is now unassigned). -/
def Game.unset_cell (g : Game) (row col : Fin 9) : Game :=
  match g.board row col with
  | none => g
  | some cv =>
    let g1 : Game :=
      { board := fun y x => if y = row ∧ x = col then none else g.board y x
        cell_poss := g.cell_poss
        cols_flags := fun c i => if c = col ∧ i = cv then false else g.cols_flags c i
        rows_flags := fun r i => if r = row ∧ i = cv then false else g.rows_flags r i
        sqrs_flags := fun s i => if s = sqrs_ind row col ∧ i = cv then false else g.sqrs_flags s i }
    g1.update_poss_from_flags row col

/-- Raise one flag in a scratch flag array (`rows[y][i] = true` in the
scan loops of `solved` / `is_valid`). -/
def updFlag (f : Fin 9 → CellValue → Bool) (a : Fin 9) (d : CellValue) :
    Fin 9 → CellValue → Bool :=
  fun a1 d1 => if a1 = a ∧ d1 = d then true else f a1 d1

/-- The scan loop of `Game::solved`: walk the cells accumulating scratch
flags; `false` on the first unset cell or on the first duplicated digit in a
row, column, or square. -/
def Game.solvedGo (g : Game) (rows cols sqrs : Fin 9 → CellValue → Bool) :
    List (Fin 9 × Fin 9) → Bool
  | [] => true
  | p :: rest =>
    match g.board p.1 p.2 with
    | none => false
    | some cv =>
      if rows p.1 cv || cols p.2 cv || sqrs (sqrs_ind p.1 p.2) cv then false
      else
        g.solvedGo (updFlag rows p.1 cv) (updFlag cols p.2 cv)
          (updFlag sqrs (sqrs_ind p.1 p.2) cv) rest

/-- `Game::solved`: full scan with fresh flag arrays.  (In `solved` the
square index is written `sqrs_x + sqrs_y` with `sqrs_y = 3 * (y / 3)` and
`sqrs_x = x / 3`, which is `sqrs_ind y x`.) -/
def Game.solved (g : Game) : Bool :=
  g.solvedGo (fun _ _ => false) (fun _ _ => false) (fun _ _ => false) allCells

/-- `!poss.contains(&true)` for the possibility set of cell `(y, x)`. -/
def Game.possEmpty (g : Game) (y x : Fin 9) : Bool :=
  !((List.finRange 9).any fun i => g.cell_poss y x i)

/-- The duplicate scan of `Game::is_valid` (skips unset cells). -/
def Game.validGo (g : Game) (rows cols sqrs : Fin 9 → CellValue → Bool) :
    List (Fin 9 × Fin 9) → Bool
  | [] => true
  | p :: rest =>
    match g.board p.1 p.2 with
    | none => g.validGo rows cols sqrs rest
    | some cv =>
      if rows p.1 cv || cols p.2 cv || sqrs (sqrs_ind p.1 p.2) cv then false
      else
        g.validGo (updFlag rows p.1 cv) (updFlag cols p.2 cv)
          (updFlag sqrs (sqrs_ind p.1 p.2) cv) rest

/-- `Game::is_valid`.  The `verbose` parameter of the source only controls
diagnostic printing and is dropped.  First check: no unset cell with an
empty possibility set; second check: no duplicate digit in any row, column,
or square. -/
def Game.is_valid (g : Game) : Bool :=
  match allCells.find? (fun p => g.board p.1 p.2 == none && g.possEmpty p.1 p.2) with
  | some _ => false
  | none => g.validGo (fun _ _ => false) (fun _ _ => false) (fun _ _ => false) allCells

/-- `Game::new`.  Models `assert!(n < 10)` and the final
`assert!(new.is_valid(true))` as `none`.  The incremental flag building of
the first loop is embedded by its final value: a group's flag for a digit is
raised exactly when some cell of the group holds that digit.  The second
loop recomputes the possibilities of unset cells from the flags. -/
def Game.new (numbers : Fin 9 → Fin 9 → Nat) : Option Game :=
  if (List.finRange 9).all (fun y => (List.finRange 9).all fun x => numbers y x < 10) then
    let board : Fin 9 → Fin 9 → Option CellValue := fun y x => CellValue.new (numbers y x)
    let rf : Fin 9 → CellValue → Bool := fun y i =>
      (List.finRange 9).any fun x => board y x == some i
    let cf : Fin 9 → CellValue → Bool := fun x i =>
      (List.finRange 9).any fun y => board y x == some i
    let sf : Fin 9 → CellValue → Bool := fun s i =>
      allCells.any fun p => sqrs_ind p.1 p.2 == s && board p.1 p.2 == some i
    let g : Game :=
      { board := board
        cell_poss := fun y x i =>
          match board y x with
          | some cv => decide (i = cv)
          | none => !(rf y i || cf x i || sf (sqrs_ind y x) i)
        cols_flags := cf
        rows_flags := rf
        sqrs_flags := sf }
    if g.is_valid then some g else none
  else none

/-- Number of `true` entries of a flag array for a given digit
(`flags.iter().filter(|b| b[cv]).count()`). -/
def flagCount (f : Fin 9 → CellValue → Bool) (cv : CellValue) : Nat :=
  ((List.finRange 9).filter fun a => f a cv).length

/-- Number of possible digits of a cell
(`cell_poss[y][x].iter().filter(|&b| b).count()`). -/
def Game.possCount (g : Game) (y x : Fin 9) : Nat :=
  ((List.finRange 9).filter fun i => g.cell_poss y x i).length

/-- Row coordinate of position `p` (in row-major 3×3 iteration order) of
square `s`: `rs + p / 3` with `rs = 3 * (s / 3)`. -/
def sqrCellR (s p : Fin 9) : Fin 9 := ⟨3 * (s.val / 3) + p.val / 3, by omega⟩

/-- Column coordinate of position `p` of square `s`:
`cs + p % 3` with `cs = 3 * (s % 3)`. -/
def sqrCellC (s p : Fin 9) : Fin 9 := ⟨3 * (s.val % 3) + p.val % 3, by omega⟩

/-- The row check of `propagate_poss_to_board` for one digit `cv`: if eight
rows already have `cv`, find the remaining row and the first cell in it that
can still take `cv`, and set it.  The `expect("rfr")` cannot fire under the
`== 8` guard (eight of nine flags true leaves one false); an impossible
`none` from `find?` is embedded as "no change". -/
def Game.prop_row_check (g : Game) (cv : CellValue) : Game × Bool :=
  if flagCount g.rows_flags cv = 8 then
    match (List.finRange 9).find? (fun r => !(g.rows_flags r cv)) with
    | some r =>
      match (List.finRange 9).find? (fun c => g.cell_poss r c cv) with
      | some c => (g.set_cell r c cv, true)
      | none => (g, false)
    | none => (g, false)
  else (g, false)

/-- The column check of `propagate_poss_to_board` for one digit. -/
def Game.prop_col_check (g : Game) (cv : CellValue) : Game × Bool :=
  if flagCount g.cols_flags cv = 8 then
    match (List.finRange 9).find? (fun c => !(g.cols_flags c cv)) with
    | some c =>
      match (List.finRange 9).find? (fun r => g.cell_poss r c cv) with
      | some r => (g.set_cell r c cv, true)
      | none => (g, false)
    | none => (g, false)
  else (g, false)

/-- The 3×3-square check of `propagate_poss_to_board` for one digit.  The
source turns the position `p` of `iter_3x3_poss(rs, cs)` into coordinates
`(rs + p / 3, cs + p % 3)`; `sqrCellR`/`sqrCellC` are exactly that. -/
def Game.prop_sqr_check (g : Game) (cv : CellValue) : Game × Bool :=
  if flagCount g.sqrs_flags cv = 8 then
    match (List.finRange 9).find? (fun s => !(g.sqrs_flags s cv)) with
    | some s =>
      match (List.finRange 9).find? (fun p => g.cell_poss (sqrCellR s p) (sqrCellC s p) cv) with
      | some p => (g.set_cell (sqrCellR s p) (sqrCellC s p) cv, true)
      | none => (g, false)
    | none => (g, false)
  else (g, false)

/-- One iteration of the `for cv in 0..9` loop of `propagate_poss_to_board`:
the row, column, and square checks in order, accumulating `made_change`. -/
def Game.prop_group_step (acc : Game × Bool) (cv : CellValue) : Game × Bool :=
  let r1 := acc.1.prop_row_check cv
  let r2 := r1.1.prop_col_check cv
  let r3 := r2.1.prop_sqr_check cv
  (r3.1, acc.2 || (r1.2 || r2.2 || r3.2))

/-- One iteration of the final 81-cell scan of `propagate_poss_to_board`:
if the cell is unset and has exactly one possible digit, set it.  The
`unwrap` after `position` cannot fire when the count is 1; an impossible
`none` is embedded as "no change". -/
def Game.prop_single_step (acc : Game × Bool) (p : Fin 9 × Fin 9) : Game × Bool :=
  match acc.1.board p.1 p.2 with
  | some _ => acc
  | none =>
    if acc.1.possCount p.1 p.2 = 1 then
      match (List.finRange 9).find? (fun i => acc.1.cell_poss p.1 p.2 i) with
      | some cv => (acc.1.set_cell p.1 p.2 cv, true)
      | none => acc
    else acc

/-- `Game::propagate_poss_to_board`: no-op returning `false` when already
solved; otherwise the per-digit group checks followed by the 81-cell
single-candidate scan, returning whether any change was made. -/
def Game.propagate_poss_to_board (g : Game) : Game × Bool :=
  if g.solved then (g, false)
  else allCells.foldl Game.prop_single_step ((List.finRange 9).foldl Game.prop_group_step (g, false))

/-- The `loop { if !self.propagate_poss_to_board() { break; } }` of `solve`
and `solve_recursive`, with explicit fuel; `none` models non-termination
(never reached from the solver's call sites, which pass fuel 82 — more than
one iteration per assignable cell). -/
def Game.propagateFix (g : Game) : Nat → Option Game
  | 0 => none
  | fuel + 1 =>
    let r := g.propagate_poss_to_board
    if r.2 then r.1.propagateFix fuel else some r.1

/-- `self.iter().find(|(_, _, cell, _)| cell.is_none())`: the first unset
cell in row-major order. -/
def Game.firstUnassigned (g : Game) : Option (Fin 9 × Fin 9) :=
  allCells.find? fun p => g.board p.1 p.2 == none

/-- The candidate list of a cell:
`poss.iter().enumerate().filter(|(_, &p)| p).map(...)`, i.e. the still
possible digits in ascending order. -/
def Game.candidates (g : Game) (y x : Fin 9) : List CellValue :=
  (List.finRange 9).filter fun i => g.cell_poss y x i

/-- Number of assigned cells
(`board.iter().map(|row| row.iter().filter(|cv| cv.is_some()).count()).sum()`). -/
def Game.assignedCount (g : Game) : Nat :=
  ((List.finRange 9).map fun y =>
    ((List.finRange 9).filter fun x => (g.board y x).isSome).length).sum

/-- The `for cv in poss` loop of `solve_recursive`, parametrised by the
recursive call `next` (instantiated with `solve_recursiveF fuel`).  Each
candidate is tried on a copy `new` of the receiver: set, then check
`is_valid` immediately (the `unset_cell` of the reject branch acts on the
discarded copy); on direct solve return `true` with the receiver unchanged
(the source has no `*self = new` in this branch); on recursive success
adopt the copy; otherwise try the next candidate with the receiver intact. -/
def Game.recCandsF (next : Game → Nat → Nat → Option (Game × Bool)) (g : Game)
    (y x : Fin 9) (cands : List CellValue) (depth maxd : Nat) : Option (Game × Bool) :=
  match cands with
  | [] => some (g, false)
  | cv :: rest =>
    let new := g.set_cell y x cv
    if new.is_valid then
      if new.solved then some (g, true)
      else
        match next new (depth + 1) maxd with
        | none => none
        | some (n2, true) => some (n2, true)
        | some (_, false) => Game.recCandsF next g y x rest depth maxd
    else Game.recCandsF next g y x rest depth maxd

/-- `Game::solve_recursive`, with structural fuel (first argument).  Returns
`some (self', b)`: the final receiver state and the Rust return value;
`none` models a panic (the `unwrap` on a full-but-unsolved board) or fuel
exhaustion.  `depth > max_depth` returns `false` immediately. -/
def Game.solve_recursiveF : Nat → Game → Nat → Nat → Option (Game × Bool)
  | 0, _, _, _ => none
  | fuel + 1, g, depth, maxd =>
    if maxd < depth then some (g, false)
    else
      match g.propagateFix 82 with
      | none => none
      | some g1 =>
        if g1.solved then some (g1, true)
        else
          match g1.firstUnassigned with
          | none => none
          | some p =>
            Game.recCandsF (Game.solve_recursiveF fuel) g1 p.1 p.2
              (g1.candidates p.1 p.2) depth maxd

/-- `Game::solve_recursive`: fuel `maxd + 2` suffices, since every level
consumes one unit while `depth` grows by one and the `depth > max_depth`
guard stops the descent. -/
def Game.solve_recursive (g : Game) (depth maxd : Nat) : Option (Game × Bool) :=
  Game.solve_recursiveF (maxd + 2) g depth maxd

/-- The root candidate loop of `Game::solve`.  `none` models
`panic!("Found no unique solution to game.")` when the list is exhausted,
or a panic bubbling up from the recursion.  As in the source, a candidate
that fails `is_valid` (the `unset_cell` acts on the discarded copy) or whose
subtree returns `false` leaves the receiver untouched; success installs the
copy (`*self = new`). -/
def Game.rootLoop (g : Game) (y x : Fin 9) (cands : List CellValue) (cap : Nat) :
    Option Game :=
  match cands with
  | [] => none
  | cv :: rest =>
    let new := g.set_cell y x cv
    if new.is_valid then
      if new.solved then some new
      else
        match new.solve_recursive 1 cap with
        | none => none
        | some (n2, true) => some n2
        | some (_, false) => g.rootLoop y x rest cap
    else g.rootLoop y x rest cap

/-- `Game::solve`.  Returns the final receiver state, or `none` for a
panic.  The depth cap is `81 -` the number of assigned cells, computed
after the propagation loop. -/
def Game.solve (g : Game) : Option Game :=
  if g.solved then some g
  else
    match g.propagateFix 82 with
    | none => none
    | some g1 =>
      if g1.solved then some g1
      else
        let cap := 81 - g1.assignedCount
        match g1.firstUnassigned with
        | none => none
        | some p => g1.rootLoop p.1 p.2 (g1.candidates p.1 p.2) cap

/-! ## Specification-side predicates and concrete instances -/

/-- Row-major index of a cell: cell `q` is scanned before cell `p` by
`Game::iter` exactly when `rmIdx q < rmIdx p`. -/
def rmIdx (p : Fin 9 × Fin 9) : Nat := p.1.val * 9 + p.2.val

/-- Two distinct-or-not cells share a row, a column, or a 3×3 square. -/
def sameGroup (p q : Fin 9 × Fin 9) : Prop :=
  p.1 = q.1 ∨ p.2 = q.2 ∨ sqrs_ind p.1 p.2 = sqrs_ind q.1 q.2

/-- Cells `p` and `q` hold the same digit and share a group. -/
def conflict (g : Game) (p q : Fin 9 × Fin 9) : Prop :=
  sameGroup p q ∧ ∃ d, g.board p.1 p.2 = some d ∧ g.board q.1 q.2 = some d

/-- No row, column, or 3×3 square contains the same assigned digit twice. -/
def noDupsP (g : Game) : Prop :=
  ∀ p q : Fin 9 × Fin 9, p ≠ q → ¬ conflict g p q

/-- Digit `i` appears among the assigned cells of the row, column, or
square of cell `(y, x)` (the spec's "digits present among its peers";
note the cell itself is included, which is irrelevant for unassigned cells). -/
def digitPresent (g : Game) (y x : Fin 9) (i : CellValue) : Prop :=
  (∃ x2, g.board y x2 = some i) ∨ (∃ y2, g.board y2 x = some i) ∨
    (∃ p : Fin 9 × Fin 9, sqrs_ind p.1 p.2 = sqrs_ind y x ∧ g.board p.1 p.2 = some i)

/-- The occupancy flag arrays record exactly which digits are present in
each row / column / square of the board. -/
def flagsOcc (g : Game) : Prop :=
  (∀ r i, g.rows_flags r i = true ↔ ∃ x, g.board r x = some i) ∧
  (∀ c i, g.cols_flags c i = true ↔ ∃ y, g.board y c = some i) ∧
  (∀ s i, g.sqrs_flags s i = true ↔
    ∃ p : Fin 9 × Fin 9, sqrs_ind p.1 p.2 = s ∧ g.board p.1 p.2 = some i)

/-- Every assigned cell's possibility set is the singleton of its digit. -/
def assignedSingleton (g : Game) : Prop :=
  ∀ y x d, g.board y x = some d → ∀ i, g.cell_poss y x i = decide (i = d)

/-- The possibility-set/occupancy-flag synchronization invariant: every
unassigned cell's possibility set is the pointwise complement of the union
of its row, column, and square flags. -/
def possFlagSync (g : Game) : Prop :=
  ∀ y x, g.board y x = none → ∀ i,
    g.cell_poss y x i =
      !(g.rows_flags y i || g.cols_flags x i || g.sqrs_flags (sqrs_ind y x) i)

/-- The full state invariant maintained by the solver. -/
def GameInv (g : Game) : Prop :=
  flagsOcc g ∧ assignedSingleton g ∧ possFlagSync g ∧ noDupsP g

/-- The spec's possibility-set property: unassigned cells can take exactly
the digits not present among their peers; assigned cells only their own. -/
def possSpecHolds (g : Game) : Prop :=
  ∀ y x,
    (g.board y x = none → ∀ i, (g.cell_poss y x i = true ↔ ¬ digitPresent g y x i)) ∧
    (∀ d, g.board y x = some d → ∀ i, (g.cell_poss y x i = true ↔ i = d))

/-- A mutation of the solver state: one `set_cell` or `unset_cell` call. -/
inductive SOp where
  | set (row col : Fin 9) (cv : CellValue)
  | unset (row col : Fin 9)

/-- Apply one mutation. -/
def applyOp (g : Game) : SOp → Game
  | .set r c v => g.set_cell r c v
  | .unset r c => g.unset_cell r c

/-- Apply a sequence of mutations, left to right. -/
def applyOps (g : Game) : List SOp → Game
  | [] => g
  | op :: rest => applyOps (applyOp g op) rest

/-- A sequence of mutations is admissible when every `set_cell` call
assigns a digit that is still possible for its cell at the time of the
call — which is how the solver invokes `set_cell` everywhere. -/
def admissibleOps (g : Game) : List SOp → Bool
  | [] => true
  | .set r c v :: rest => g.cell_poss r c v && admissibleOps (g.set_cell r c v) rest
  | .unset r c :: rest => admissibleOps (g.unset_cell r c) rest

/-- Modelled from the claim's words (C3): "for each candidate, the solver
tentatively assigns it, propagates to fixpoint, and then checks validity".
This is the candidate-acceptance test the claim describes; it is compared
against the code's actual test, which is `is_valid` immediately after
`set_cell` with no intermediate propagation. -/
def claimCandidateCheck (g : Game) (y x : Fin 9) (cv : CellValue) : Bool :=
  match (g.set_cell y x cv).propagateFix 82 with
  | some gp => gp.is_valid
  | none => true

/-! ### Concrete boards used as witnesses and counterexamples -/

/-- Build a grid function from a list-of-rows literal. -/
def mkGrid (l : List (List Nat)) : Fin 9 → Fin 9 → Nat :=
  fun y x => ((l.getD y.val []).getD x.val 0)

/-- Placeholder game for `Option.getD`. -/
def defGame : Game :=
  ⟨fun _ _ => none, fun _ _ _ => true, fun _ _ => false, fun _ _ => false, fun _ _ => false⟩

/-- The all-zero input grid. -/
def numsEmpty : Fin 9 → Fin 9 → Nat := fun _ _ => 0

/-- The game constructed from the empty grid. -/
def gEmpty : Game := (Game.new numsEmpty).getD defGame

/-- An input with an out-of-range entry. -/
def numsBad : Fin 9 → Fin 9 → Nat := fun y x => if y.val = 0 ∧ x.val = 0 then 10 else 0

/-- An input with the digit 5 twice in row 0. -/
def numsDup : Fin 9 → Fin 9 → Nat := mkGrid [[5, 0, 5, 0, 0, 0, 0, 0, 0]]

/-- A fully solved grid (each row a cyclic shift). -/
def gridFull : Fin 9 → Fin 9 → Nat := mkGrid [
  [1, 2, 3, 4, 5, 6, 7, 8, 9],
  [4, 5, 6, 7, 8, 9, 1, 2, 3],
  [7, 8, 9, 1, 2, 3, 4, 5, 6],
  [2, 3, 4, 5, 6, 7, 8, 9, 1],
  [5, 6, 7, 8, 9, 1, 2, 3, 4],
  [8, 9, 1, 2, 3, 4, 5, 6, 7],
  [3, 4, 5, 6, 7, 8, 9, 1, 2],
  [6, 7, 8, 9, 1, 2, 3, 4, 5],
  [9, 1, 2, 3, 4, 5, 6, 7, 8]]

/-- The game constructed from the solved grid. -/
def gFull : Game := (Game.new gridFull).getD defGame

/-- A grid with the digit 1 placed in eight rows, eight columns, and eight
squares (all distinct), leaving row 8, column 8, and square 8 without a 1:
the remaining spot `(8, 8)` is found by the group checks of propagation
although its possibility set still holds all nine digits. -/
def gridOnes : Fin 9 → Fin 9 → Nat := mkGrid [
  [1, 0, 0, 0, 0, 0, 0, 0, 0],
  [0, 0, 0, 1, 0, 0, 0, 0, 0],
  [0, 0, 0, 0, 0, 0, 1, 0, 0],
  [0, 1, 0, 0, 0, 0, 0, 0, 0],
  [0, 0, 0, 0, 1, 0, 0, 0, 0],
  [0, 0, 0, 0, 0, 0, 0, 1, 0],
  [0, 0, 1, 0, 0, 0, 0, 0, 0],
  [0, 0, 0, 0, 0, 1, 0, 0, 0],
  [0, 0, 0, 0, 0, 0, 0, 0, 0]]

/-- The game constructed from `gridOnes`. -/
def gOnes : Game := (Game.new gridOnes).getD defGame

/-- A grid whose only entry is a 1 at `(0, 0)`. -/
def gridOne : Fin 9 → Fin 9 → Nat := mkGrid [[1]]

/-- The game constructed from `gridOne`. -/
def gOne : Game := (Game.new gridOne).getD defGame

/-- The MEDIUM sample puzzle after running propagation to its fixpoint: a
propagation-stable, constructible search state.  Its first unassigned cell
is `(1, 0)` with candidate digits 3, 4, 5. -/
def gridM3 : Fin 9 → Fin 9 → Nat := mkGrid [
  [8, 7, 6, 4, 9, 3, 2, 5, 1],
  [0, 0, 0, 7, 0, 2, 0, 0, 0],
  [0, 9, 0, 5, 0, 8, 0, 7, 0],
  [9, 0, 0, 1, 3, 5, 0, 0, 6],
  [7, 5, 0, 8, 2, 6, 0, 1, 9],
  [1, 0, 0, 9, 4, 7, 0, 0, 5],
  [0, 1, 0, 3, 0, 9, 0, 8, 0],
  [0, 0, 0, 2, 0, 1, 0, 0, 0],
  [0, 0, 9, 6, 8, 4, 1, 0, 0]]

/-- The game constructed from `gridM3`. -/
def gM3 : Game := (Game.new gridM3).getD defGame

/-- A handcrafted state whose first unassigned cell `(0, 0)` has an empty
possibility set while every other cell has all nine: propagation is a
no-op on it and the root candidate loop runs over an empty list. -/
def gDead : Game :=
  ⟨fun _ _ => none,
   fun y x _ => !(decide (y.val = 0 ∧ x.val = 0)),
   fun _ _ => false, fun _ _ => false, fun _ _ => false⟩

/-- A state with a single forced cell: `(0, 0)` can only take the digit 1,
every other cell anything. -/
def gForced : Game :=
  ⟨fun _ _ => none,
   fun y x i => !(decide (y.val = 0 ∧ x.val = 0)) || decide (i.val = 0),
   fun _ _ => false, fun _ _ => false, fun _ _ => false⟩

/-- The inadmissible mutation sequence of the C2 counterexample: assign
digit 1 to `(0, 0)`, then overwrite it with digit 2. -/
def opsOverwrite : List SOp := [SOp.set 0 0 0, SOp.set 0 0 1]

/-- An admissible mutation sequence used as a witness. -/
def opsGood : List SOp := [SOp.set 0 0 0, SOp.unset 0 0, SOp.set 1 1 4]

/-! ### Decidability of the specification predicates -/

instance (p q : Fin 9 × Fin 9) : Decidable (sameGroup p q) := by
  unfold sameGroup; infer_instance

instance (g : Game) (p q : Fin 9 × Fin 9) : Decidable (conflict g p q) := by
  unfold conflict; infer_instance

instance (g : Game) : Decidable (noDupsP g) := by
  unfold noDupsP; infer_instance

instance (g : Game) (y x : Fin 9) (i : CellValue) : Decidable (digitPresent g y x i) := by
  unfold digitPresent; infer_instance

instance (g : Game) : Decidable (flagsOcc g) := by
  unfold flagsOcc; infer_instance

instance (g : Game) : Decidable (assignedSingleton g) := by
  unfold assignedSingleton; infer_instance

instance (g : Game) : Decidable (possFlagSync g) := by
  unfold possFlagSync; infer_instance

instance (g : Game) : Decidable (GameInv g) := by
  unfold GameInv; infer_instance

instance (g : Game) : Decidable (possSpecHolds g) := by
  unfold possSpecHolds; infer_instance

/-! ## No-change characterization of propagation (C8) -/

lemma prop_row_check_cases (g : Game) (cv : CellValue) :
    (g.prop_row_check cv).2 = true ∨ g.prop_row_check cv = (g, false) := by
  unfold Game.prop_row_check
  split
  · split
    · split
      · left; rfl
      · right; rfl
    · right; rfl
  · right; rfl

lemma prop_col_check_cases (g : Game) (cv : CellValue) :
    (g.prop_col_check cv).2 = true ∨ g.prop_col_check cv = (g, false) := by
  unfold Game.prop_col_check
  split
  · split
    · split
      · left; rfl
      · right; rfl
    · right; rfl
  · right; rfl

lemma prop_sqr_check_cases (g : Game) (cv : CellValue) :
    (g.prop_sqr_check cv).2 = true ∨ g.prop_sqr_check cv = (g, false) := by
  unfold Game.prop_sqr_check
  split
  · split
    · split
      · left; rfl
      · right; rfl
    · right; rfl
  · right; rfl

lemma prop_group_step_cases (acc : Game × Bool) (cv : CellValue) :
    (Game.prop_group_step acc cv).2 = true ∨ Game.prop_group_step acc cv = acc := by
  obtain ⟨ga, ba⟩ := acc
  rcases prop_row_check_cases ga cv with h1 | h1
  · left; simp [Game.prop_group_step, h1]
  · rcases prop_col_check_cases ga cv with h2 | h2
    · left; simp [Game.prop_group_step, h1, h2]
    · rcases prop_sqr_check_cases ga cv with h3 | h3
      · left; simp [Game.prop_group_step, h1, h2, h3]
      · rcases hb : ba with _ | _
        · right; simp [Game.prop_group_step, h1, h2, h3, hb]
        · left; simp [Game.prop_group_step, h1, h2, h3, hb]

lemma prop_single_step_cases (acc : Game × Bool) (p : Fin 9 × Fin 9) :
    (Game.prop_single_step acc p).2 = true ∨ Game.prop_single_step acc p = acc := by
  unfold Game.prop_single_step
  split
  · right; rfl
  · split
    · split
      · left; rfl
      · right; rfl
    · right; rfl

lemma foldl_flag_false {α : Type} (f : Game × Bool → α → Game × Bool)
    (hf : ∀ acc a, (f acc a).2 = true ∨ f acc a = acc) :
    ∀ (l : List α) (acc : Game × Bool), (l.foldl f acc).2 = false → l.foldl f acc = acc := by
  intro l
  induction l with
  | nil => intro acc _; rfl
  | cons a rest ih =>
    intro acc h
    rw [List.foldl_cons] at h ⊢
    have h1 := ih (f acc a) h
    rw [h1] at h ⊢
    rcases hf acc a with h2 | h2
    · rw [h2] at h; cases h
    · exact h2

/-- C8: if a call to `propagate_poss_to_board` reports no change, the state
is untouched (the call returns the input state), and an immediately
following call also returns `false` without changing anything. -/
theorem c8_propagate_idempotent (g : Game) (h : (g.propagate_poss_to_board).2 = false) :
    g.propagate_poss_to_board = (g, false) ∧
    (g.propagate_poss_to_board).1.propagate_poss_to_board = (g, false) := by
  have hmain : g.propagate_poss_to_board = (g, false) := by
    by_cases hs : g.solved = true
    · simp [Game.propagate_poss_to_board, hs]
    · simp only [Game.propagate_poss_to_board, hs, if_false, if_neg hs] at h ⊢
      have houter := foldl_flag_false Game.prop_single_step prop_single_step_cases allCells
        ((List.finRange 9).foldl Game.prop_group_step (g, false)) h
      rw [houter] at h ⊢
      have hinner := foldl_flag_false Game.prop_group_step prop_group_step_cases
        (List.finRange 9) (g, false) h
      exact hinner
  refine ⟨hmain, ?_⟩
  rw [hmain]
  exact hmain

theorem c8_witness :
    (gEmpty.propagate_poss_to_board).2 = false ∧
      gEmpty.propagate_poss_to_board = (gEmpty, false) := by
  have h : (gEmpty.propagate_poss_to_board).2 = false := by decide
  exact ⟨h, (c8_propagate_idempotent gEmpty h).1⟩

/-! ## C9: solve on an already-solved board -/

/-- C9: on a state whose `solved()` check passes, `solve` returns
immediately with the state unchanged. -/
theorem c9_solve_noop (g : Game) (h : g.solved = true) : g.solve = some g := by
  simp [Game.solve, h]

theorem c9_witness : gFull.solved = true ∧ gFull.solve = some gFull := by
  have h : gFull.solved = true := by decide
  exact ⟨h, c9_solve_noop gFull h⟩

/-! ## C4: fatal exhaustion at the root vs. recoverable depth-cap failure -/

lemma rootLoop_exhaust (g : Game) (y x : Fin 9) (cap : Nat) (cands : List CellValue)
    (h : ∀ cv ∈ cands, (g.set_cell y x cv).is_valid = false ∨
      ((g.set_cell y x cv).is_valid = true ∧ (g.set_cell y x cv).solved = false ∧
        ∃ g2, (g.set_cell y x cv).solve_recursive 1 cap = some (g2, false))) :
    g.rootLoop y x cands cap = none := by
  induction cands with
  | nil => rfl
  | cons cv rest ih =>
    have hcv := h cv (List.mem_cons_self _ _)
    have hrest := ih fun c hc => h c (List.mem_cons_of_mem _ hc)
    rcases hcv with hinv | ⟨hval, hsol, g2, hrec⟩
    · simp only [Game.rootLoop, hinv]
      simpa using hrest
    · simp only [Game.rootLoop, hval, if_true, hsol, hrec]
      simpa using hrest

/-- C4: (1) if, at the root, every candidate digit of the branch cell either
fails the validity check or has its recursive subtree return `false`, then
`solve` ends in `none` — the model of `panic!("Found no unique solution to
game.")` — rather than any recoverable value; (2) inside `solve_recursive`,
`depth > max_depth` merely returns `false` with the receiver untouched and
no fatal outcome. -/
theorem c4_fatal_root_recoverable_depth :
    (∀ (g g1 : Game) (y x : Fin 9), g.solved = false → g.propagateFix 82 = some g1 →
      g1.solved = false → g1.firstUnassigned = some (y, x) →
      (∀ cv ∈ g1.candidates y x,
        (g1.set_cell y x cv).is_valid = false ∨
        ((g1.set_cell y x cv).is_valid = true ∧ (g1.set_cell y x cv).solved = false ∧
          ∃ g2, (g1.set_cell y x cv).solve_recursive 1 (81 - g1.assignedCount) =
            some (g2, false))) →
      g.solve = none) ∧
    (∀ (g : Game) (depth maxd : Nat), maxd < depth →
      g.solve_recursive depth maxd = some (g, false)) := by
  constructor
  · intro g g1 y x hs hfix hs1 hfu hfail
    simp only [Game.solve, hs, Bool.false_eq_true, if_false, hfix, hs1]
    rw [hfu]
    exact rootLoop_exhaust g1 y x _ _ hfail
  · intro g depth maxd h
    simp [Game.solve_recursive, Game.solve_recursiveF, h]

theorem c4_witness :
    gDead.solve = none ∧ gDead.solve_recursive 9 3 = some (gDead, false) := by
  refine ⟨?_, (c4_fatal_root_recoverable_depth).2 gDead 9 3 (by omega)⟩
  refine (c4_fatal_root_recoverable_depth).1 gDead gDead 0 0 (by decide) (by decide)
    (by decide) (by decide) ?_
  intro cv hcv
  have : gDead.candidates 0 0 = [] := by decide
  rw [this] at hcv
  cases hcv

/-! ## C10: candidates are tried on copies; failure leaves the receiver intact -/

lemma recCandsF_false_frame (next : Game → Nat → Nat → Option (Game × Bool)) (g : Game)
    (y x : Fin 9) (depth maxd : Nat) :
    ∀ (cands : List CellValue) (g2 : Game),
      Game.recCandsF next g y x cands depth maxd = some (g2, false) → g2 = g := by
  intro cands
  induction cands with
  | nil =>
    intro g2 h
    simp only [Game.recCandsF, Option.some.injEq, Prod.mk.injEq] at h
    exact h.1.symm
  | cons cv rest ih =>
    intro g2 h
    by_cases hv : (g.set_cell y x cv).is_valid = true
    · by_cases hs : (g.set_cell y x cv).solved = true
      · simp [Game.recCandsF, hv, hs] at h
      · rcases hrec : next (g.set_cell y x cv) (depth + 1) maxd with _ | ⟨n2, b⟩
        · simp [Game.recCandsF, hv, hs, hrec] at h
        · rcases b with _ | _
          · simp only [Game.recCandsF, hv, if_true, hs, hrec] at h
            exact ih g2 (by simpa using h)
          · simp [Game.recCandsF, hv, hs, hrec] at h
    · simp only [Game.recCandsF, hv] at h
      exact ih g2 (by simpa using h)

lemma solve_recursiveF_false_frame :
    ∀ (fuel : Nat) (g : Game) (depth maxd : Nat) (g2 : Game),
      Game.solve_recursiveF fuel g depth maxd = some (g2, false) →
      g2 = g ∨ g.propagateFix 82 = some g2 := by
  intro fuel g depth maxd g2 h
  cases fuel with
  | zero => cases h
  | succ fuel =>
    by_cases hd : maxd < depth
    · simp only [Game.solve_recursiveF, hd, if_true, Option.some.injEq, Prod.mk.injEq] at h
      exact Or.inl h.1.symm
    · rcases hfix : g.propagateFix 82 with _ | g1
      · simp [Game.solve_recursiveF, hd, hfix] at h
      · by_cases hs : g1.solved = true
        · simp [Game.solve_recursiveF, hd, hfix, hs] at h
        · rcases hfu : g1.firstUnassigned with _ | p
          · simp [Game.solve_recursiveF, hd, hfix, hs, hfu] at h
          · simp only [Game.solve_recursiveF, hd, if_false, hfix, hs, hfu] at h
            have hg2 := recCandsF_false_frame (Game.solve_recursiveF fuel) g1 p.1 p.2
              depth maxd (g1.candidates p.1 p.2) g2 (by simpa using h)
            exact Or.inr (by rw [hg2])

lemma rootLoop_success (g : Game) (y x : Fin 9) (cap : Nat) :
    ∀ (cands : List CellValue) (g2 : Game), g.rootLoop y x cands cap = some g2 →
      ∃ cv, cv ∈ cands ∧
        (((g.set_cell y x cv).solved = true ∧ g2 = g.set_cell y x cv) ∨
          (g.set_cell y x cv).solve_recursive 1 cap = some (g2, true)) := by
  intro cands
  induction cands with
  | nil => intro g2 h; cases h
  | cons cv rest ih =>
    intro g2 h
    by_cases hv : (g.set_cell y x cv).is_valid = true
    · by_cases hs : (g.set_cell y x cv).solved = true
      · simp only [Game.rootLoop, hv, if_true, hs] at h
        have hg2 : g2 = g.set_cell y x cv := by simpa using h.symm
        exact ⟨cv, List.mem_cons_self _ _, Or.inl ⟨hs, hg2⟩⟩
      · rcases hrec : (g.set_cell y x cv).solve_recursive 1 cap with _ | ⟨n2, b⟩
        · simp [Game.rootLoop, hv, hs, hrec] at h
        · rcases b with _ | _
          · simp only [Game.rootLoop, hv, if_true, hs, hrec] at h
            obtain ⟨c, hc, hgood⟩ := ih g2 (by simpa using h)
            exact ⟨c, List.mem_cons_of_mem _ hc, hgood⟩
          · simp only [Game.rootLoop, hv, if_true, hs, hrec] at h
            have hg2 : n2 = g2 := by simpa using h
            exact ⟨cv, List.mem_cons_self _ _, Or.inr (by rw [← hg2]; exact hrec)⟩
    · simp only [Game.rootLoop, hv] at h
      obtain ⟨c, hc, hgood⟩ := ih g2 (by simpa using h)
      exact ⟨c, List.mem_cons_of_mem _ hc, hgood⟩

lemma solve_result_shape (g g2 : Game) (h : g.solve = some g2) :
    (g.solved = true ∧ g2 = g) ∨ (g.propagateFix 82 = some g2 ∧ g2.solved = true) ∨
    (∃ g1 y x, g.solved = false ∧ g.propagateFix 82 = some g1 ∧ g1.solved = false ∧
      g1.firstUnassigned = some (y, x) ∧
      g1.rootLoop y x (g1.candidates y x) (81 - g1.assignedCount) = some g2) := by
  by_cases hs : g.solved = true
  · simp only [Game.solve, hs, if_true, Option.some.injEq] at h
    exact Or.inl ⟨hs, h.symm⟩
  · rcases hfix : g.propagateFix 82 with _ | g1
    · simp [Game.solve, hs, hfix] at h
    · by_cases hs1 : g1.solved = true
      · simp only [Game.solve, hs, if_false, hfix, hs1, if_true] at h
        have hg2 : g1 = g2 := by simpa using h
        exact Or.inr (Or.inl ⟨by rw [hg2], by rw [← hg2]; exact hs1⟩)
      · rcases hfu : g1.firstUnassigned with _ | p
        · simp [Game.solve, hs, hfix, hs1, hfu] at h
        · simp only [Game.solve, hs, if_false, hfix, hs1, hfu] at h
          exact Or.inr (Or.inr ⟨g1, p.1, p.2, by simpa using hs, rfl, by simpa using hs1,
            by rw [hfu], by simpa using h⟩)

/-- C10: in both `solve` and `solve_recursive` every candidate is tried on a
copy.  (1) If the whole candidate loop of `solve_recursive` returns `false`,
the receiver is bit-for-bit unchanged; (2) hence a `solve_recursive` call
returning `false` leaves its receiver changed only by its initial
propagation-to-fixpoint loop; (3) a successful `rootLoop` result is the
state of some successful candidate copy (either the copy right after the
assignment that solved the board, or the state produced by the successful
recursive call on the copy); (4) a successful `solve` result is the
receiver itself (already solved), the propagated receiver, or a `rootLoop`
success for the propagated receiver's first unassigned cell. -/
theorem c10_copy_on_branch :
    (∀ (next : Game → Nat → Nat → Option (Game × Bool)) (g : Game) (y x : Fin 9)
      (depth maxd : Nat) (cands : List CellValue) (g2 : Game),
      Game.recCandsF next g y x cands depth maxd = some (g2, false) → g2 = g) ∧
    (∀ (fuel : Nat) (g : Game) (depth maxd : Nat) (g2 : Game),
      Game.solve_recursiveF fuel g depth maxd = some (g2, false) →
      g2 = g ∨ g.propagateFix 82 = some g2) ∧
    (∀ (g : Game) (y x : Fin 9) (cap : Nat) (cands : List CellValue) (g2 : Game),
      g.rootLoop y x cands cap = some g2 →
      ∃ cv, cv ∈ cands ∧
        (((g.set_cell y x cv).solved = true ∧ g2 = g.set_cell y x cv) ∨
          (g.set_cell y x cv).solve_recursive 1 cap = some (g2, true))) ∧
    (∀ (g g2 : Game), g.solve = some g2 →
      (g.solved = true ∧ g2 = g) ∨ (g.propagateFix 82 = some g2 ∧ g2.solved = true) ∨
      (∃ g1 y x, g.solved = false ∧ g.propagateFix 82 = some g1 ∧ g1.solved = false ∧
        g1.firstUnassigned = some (y, x) ∧
        g1.rootLoop y x (g1.candidates y x) (81 - g1.assignedCount) = some g2)) :=
  ⟨fun next g y x depth maxd cands g2 h => recCandsF_false_frame next g y x depth maxd cands g2 h,
   solve_recursiveF_false_frame,
   fun g y x cap cands g2 h => rootLoop_success g y x cap cands g2 h,
   solve_result_shape⟩

theorem c10_witness :
    gDead = gDead ∨ Game.propagateFix gDead 82 = some gDead := by
  have h : Game.solve_recursiveF 5 gDead 9 3 = some (gDead, false) := by decide
  exact c10_copy_on_branch.2.1 5 gDead 9 3 gDead h

/-! ## C3: branch-cell choice, candidate order, and where validity is checked -/

lemma find?_mem_first {α : Type} (R : α → α → Prop) :
    ∀ (l : List α), l.Pairwise R → ∀ (p : α → Bool) (a : α), l.find? p = some a →
      ∀ b ∈ l, p b = true → b = a ∨ R a b := by
  intro l
  induction l with
  | nil => intro _ p a h; cases h
  | cons c rest ih =>
    intro hpw p a h b hb hpb
    rcases List.pairwise_cons.mp hpw with ⟨hcr, hrest⟩
    rcases hpc : p c with _ | _
    · rw [List.find?_cons, hpc] at h
      rcases List.mem_cons.mp hb with rfl | hbr
      · rw [hpb] at hpc; cases hpc
      · exact ih hrest p a h b hbr hpb
    · rw [List.find?_cons, hpc] at h
      have hac : a = c := by injection h with h2; exact h2.symm
      rcases List.mem_cons.mp hb with rfl | hbr
      · exact Or.inl hac.symm
      · exact Or.inr (hac ▸ hcr b hbr)

lemma allCells_pairwise_rm : allCells.Pairwise fun p q => rmIdx p < rmIdx q := by decide

lemma mem_allCells : ∀ p : Fin 9 × Fin 9, p ∈ allCells := by decide

lemma finRange9_pairwise_lt : (List.finRange 9).Pairwise (· < ·) := by decide

/-- C3 (amended): (1) the branch cell returned by the first-unassigned scan
is unassigned and every cell strictly before it in row-major order is
assigned; (2) the candidate list of a cell is in strictly ascending digit
order and holds exactly the digits still possible for the cell; (3) in the
candidate loop of `solve_recursive`, and (4) in the root candidate loop of
`solve`, a candidate whose copy fails `is_valid` *immediately after the
assignment* (with no propagation in between) is skipped and the loop moves
on to the next candidate — propagation to fixpoint only happens inside the
recursive call made for candidates that pass this check. -/
theorem c3_branching_order :
    (∀ (g : Game) (p : Fin 9 × Fin 9), g.firstUnassigned = some p →
      g.board p.1 p.2 = none ∧
        ∀ q : Fin 9 × Fin 9, rmIdx q < rmIdx p → g.board q.1 q.2 ≠ none) ∧
    (∀ (g : Game) (y x : Fin 9), (g.candidates y x).Pairwise (· < ·) ∧
      ∀ cv, cv ∈ g.candidates y x ↔ g.cell_poss y x cv = true) ∧
    (∀ (next : Game → Nat → Nat → Option (Game × Bool)) (g : Game) (y x : Fin 9)
      (cv : CellValue) (rest : List CellValue) (depth maxd : Nat),
      (g.set_cell y x cv).is_valid = false →
      Game.recCandsF next g y x (cv :: rest) depth maxd =
        Game.recCandsF next g y x rest depth maxd) ∧
    (∀ (g : Game) (y x : Fin 9) (cv : CellValue) (rest : List CellValue) (cap : Nat),
      (g.set_cell y x cv).is_valid = false →
      g.rootLoop y x (cv :: rest) cap = g.rootLoop y x rest cap) := by
  refine ⟨?_, ?_, ?_, ?_⟩
  · intro g p h
    have hp : g.board p.1 p.2 = none := by
      have := List.find?_some h
      simpa using this
    refine ⟨hp, ?_⟩
    intro q hlt hq
    have hmem : q ∈ allCells := mem_allCells q
    have := find?_mem_first _ allCells allCells_pairwise_rm _ p h q hmem (by simpa using hq)
    rcases this with rfl | hgt
    · omega
    · omega
  · intro g y x
    constructor
    · exact List.Pairwise.sublist (List.filter_sublist _) finRange9_pairwise_lt
    · intro cv
      simp [Game.candidates, List.mem_filter, List.mem_finRange]
  · intro next g y x cv rest depth maxd h
    simp [Game.recCandsF, h]
  · intro g y x cv rest cap h
    simp [Game.rootLoop, h]

/-- C3 counterexample: `gM3` is a constructed, propagation-stable search
state whose branch cell is `(1, 0)` with candidates 3, 4, 5.  For the
candidate digit 4 the code's actual test — `is_valid` immediately after
`set_cell` — passes (and, the copy not being solved, the solver proceeds
into the recursive call), whereas the claim's test — propagate to fixpoint,
then check validity — fails.  So the claim misdescribes the code: this
candidate is not "undone after the validity check" at this level. -/
theorem c3_counter :
    Game.new gridM3 = some gM3 ∧
    (gM3.propagate_poss_to_board).2 = false ∧
    gM3.firstUnassigned = some (1, 0) ∧
    gM3.candidates 1 0 = [2, 3, 4] ∧
    (gM3.set_cell 1 0 3).is_valid = true ∧
    (gM3.set_cell 1 0 3).solved = false ∧
    claimCandidateCheck gM3 1 0 3 = false := by
  refine ⟨by decide, by decide, by decide, by decide,
    by decide, by decide, by decide⟩

theorem c3_witness :
    gEmpty.board 0 0 = none ∧
    ((2 : CellValue) ∈ gEmpty.candidates 0 0) ∧
    Game.recCandsF (Game.solve_recursiveF 5) gOne 0 1 [0, 1] 1 80 =
      Game.recCandsF (Game.solve_recursiveF 5) gOne 0 1 [1] 1 80 ∧
    gOne.rootLoop 0 1 [0] 80 = gOne.rootLoop 0 1 [] 80 := by
  refine ⟨?_, ?_, ?_, ?_⟩
  · exact (c3_branching_order.1 gEmpty (0, 0) (by decide)).1
  · exact ((c3_branching_order.2.1 gEmpty 0 0).2 2).mpr (by decide)
  · exact c3_branching_order.2.2.1 (Game.solve_recursiveF 5) gOne 0 1 0 [1] 1 80
      (by decide)
  · exact c3_branching_order.2.2.2 gOne 0 1 0 [] 80 (by decide)

/-! ## C1: where propagation assigns cells -/

lemma prop_row_check_change (g : Game) (cv : CellValue)
    (h : (g.prop_row_check cv).1 ≠ g) :
    flagCount g.rows_flags cv = 8 ∧ ∃ r c, g.rows_flags r cv = false ∧
      g.cell_poss r c cv = true ∧ g.prop_row_check cv = (g.set_cell r c cv, true) := by
  by_cases hc : flagCount g.rows_flags cv = 8
  · rcases hr : (List.finRange 9).find? (fun r => !(g.rows_flags r cv)) with _ | r
    · exact absurd (by simp [Game.prop_row_check, hc, hr]) h
    · rcases hcc : (List.finRange 9).find? (fun c => g.cell_poss r c cv) with _ | c
      · exact absurd (by simp [Game.prop_row_check, hc, hr, hcc]) h
      · refine ⟨hc, r, c, by simpa using List.find?_some hr, by simpa using List.find?_some hcc, ?_⟩
        simp [Game.prop_row_check, hc, hr, hcc]
  · exact absurd (by simp [Game.prop_row_check, hc]) h

lemma prop_col_check_change (g : Game) (cv : CellValue)
    (h : (g.prop_col_check cv).1 ≠ g) :
    flagCount g.cols_flags cv = 8 ∧ ∃ r c, g.cols_flags c cv = false ∧
      g.cell_poss r c cv = true ∧ g.prop_col_check cv = (g.set_cell r c cv, true) := by
  by_cases hc : flagCount g.cols_flags cv = 8
  · rcases hcc : (List.finRange 9).find? (fun c => !(g.cols_flags c cv)) with _ | c
    · exact absurd (by simp [Game.prop_col_check, hc, hcc]) h
    · rcases hr : (List.finRange 9).find? (fun r => g.cell_poss r c cv) with _ | r
      · exact absurd (by simp [Game.prop_col_check, hc, hcc, hr]) h
      · refine ⟨hc, r, c, by simpa using List.find?_some hcc, by simpa using List.find?_some hr, ?_⟩
        simp [Game.prop_col_check, hc, hcc, hr]
  · exact absurd (by simp [Game.prop_col_check, hc]) h

lemma prop_sqr_check_change (g : Game) (cv : CellValue)
    (h : (g.prop_sqr_check cv).1 ≠ g) :
    flagCount g.sqrs_flags cv = 8 ∧ ∃ s p, g.sqrs_flags s cv = false ∧
      g.cell_poss (sqrCellR s p) (sqrCellC s p) cv = true ∧
      g.prop_sqr_check cv = (g.set_cell (sqrCellR s p) (sqrCellC s p) cv, true) := by
  by_cases hc : flagCount g.sqrs_flags cv = 8
  · rcases hs : (List.finRange 9).find? (fun s => !(g.sqrs_flags s cv)) with _ | s
    · exact absurd (by simp [Game.prop_sqr_check, hc, hs]) h
    · rcases hp : (List.finRange 9).find?
        (fun p => g.cell_poss (sqrCellR s p) (sqrCellC s p) cv) with _ | p
      · exact absurd (by simp [Game.prop_sqr_check, hc, hs, hp]) h
      · refine ⟨hc, s, p, by simpa using List.find?_some hs, by simpa using List.find?_some hp, ?_⟩
        simp [Game.prop_sqr_check, hc, hs, hp]
  · exact absurd (by simp [Game.prop_sqr_check, hc]) h

lemma prop_single_step_change (acc : Game × Bool) (p : Fin 9 × Fin 9)
    (h : (Game.prop_single_step acc p).1 ≠ acc.1) :
    acc.1.board p.1 p.2 = none ∧ acc.1.possCount p.1 p.2 = 1 ∧
      ∃ cv, acc.1.cell_poss p.1 p.2 cv = true ∧
        Game.prop_single_step acc p = (acc.1.set_cell p.1 p.2 cv, true) := by
  rcases hb : acc.1.board p.1 p.2 with _ | d
  · by_cases h1 : acc.1.possCount p.1 p.2 = 1
    · rcases hf : (List.finRange 9).find? (fun i => acc.1.cell_poss p.1 p.2 i) with _ | cv
      · exact absurd (by simp [Game.prop_single_step, hb, h1, hf]) h
      · exact ⟨rfl, h1, cv, by simpa using List.find?_some hf,
          by simp [Game.prop_single_step, hb, h1, hf]⟩
    · exact absurd (by simp [Game.prop_single_step, hb, h1]) h
  · exact absurd (by simp [Game.prop_single_step, hb]) h

/-- C1 (amended): the final scan of `propagate_poss_to_board` assigns only
unassigned cells whose possibility set has exactly one candidate at the
moment of assignment (first conjunct); but the three group checks that
precede it assign a digit whose row/column/square occupancy-flag count is
eight to the first spot of the remaining group whose possibility set merely
*contains* the digit — such a cell's possibility set need not be a
singleton (remaining conjuncts; see the counterexample). -/
theorem c1_assignment_sites :
    (∀ (acc : Game × Bool) (p : Fin 9 × Fin 9), (Game.prop_single_step acc p).1 ≠ acc.1 →
      acc.1.board p.1 p.2 = none ∧ acc.1.possCount p.1 p.2 = 1 ∧
        ∃ cv, acc.1.cell_poss p.1 p.2 cv = true ∧
          Game.prop_single_step acc p = (acc.1.set_cell p.1 p.2 cv, true)) ∧
    (∀ (g : Game) (cv : CellValue), (g.prop_row_check cv).1 ≠ g →
      flagCount g.rows_flags cv = 8 ∧ ∃ r c, g.rows_flags r cv = false ∧
        g.cell_poss r c cv = true ∧ g.prop_row_check cv = (g.set_cell r c cv, true)) ∧
    (∀ (g : Game) (cv : CellValue), (g.prop_col_check cv).1 ≠ g →
      flagCount g.cols_flags cv = 8 ∧ ∃ r c, g.cols_flags c cv = false ∧
        g.cell_poss r c cv = true ∧ g.prop_col_check cv = (g.set_cell r c cv, true)) ∧
    (∀ (g : Game) (cv : CellValue), (g.prop_sqr_check cv).1 ≠ g →
      flagCount g.sqrs_flags cv = 8 ∧ ∃ s p, g.sqrs_flags s cv = false ∧
        g.cell_poss (sqrCellR s p) (sqrCellC s p) cv = true ∧
        g.prop_sqr_check cv = (g.set_cell (sqrCellR s p) (sqrCellC s p) cv, true)) :=
  ⟨prop_single_step_change, prop_row_check_change, prop_col_check_change,
    prop_sqr_check_change⟩

/-- C1 counterexample: on the constructed state `gOnes` the very first
action of `propagate_poss_to_board` (the row check for the digit 1) assigns
the unassigned cell `(8, 8)` even though its possibility set still holds
all nine digits — refuting "a cell is assigned only when its possibility
set has exactly one candidate at the moment of assignment". -/
theorem c1_counter :
    Game.new gridOnes = some gOnes ∧
    gOnes.board 8 8 = none ∧
    gOnes.possCount 8 8 = 9 ∧
    gOnes.prop_row_check 0 = (gOnes.set_cell 8 8 0, true) ∧
    (gOnes.propagate_poss_to_board).1.board 8 8 = some 0 := by
  exact ⟨by decide, by decide, by decide, by decide, by decide⟩

theorem c1_witness : gForced.board 0 0 = none ∧ gForced.possCount 0 0 = 1 := by
  have h := c1_assignment_sites.1 (gForced, false) (0, 0) (by decide)
  exact ⟨h.1, h.2.1⟩

/-! ## Characterizing the duplicate scans (`solved`, `is_valid`) -/

lemma updFlag_eq_false {f : Fin 9 → CellValue → Bool} {a a1 : Fin 9} {d d1 : CellValue} :
    updFlag f a d a1 d1 = false ↔ ¬(a1 = a ∧ d1 = d) ∧ f a1 d1 = false := by
  unfold updFlag
  split
  · simp_all
  · simp_all

lemma conflict_symm (g : Game) {p q : Fin 9 × Fin 9} (h : conflict g p q) : conflict g q p := by
  obtain ⟨hs, d, h1, h2⟩ := h
  refine ⟨?_, d, h2, h1⟩
  rcases hs with h | h | h
  · exact Or.inl h.symm
  · exact Or.inr (Or.inl h.symm)
  · exact Or.inr (Or.inr h.symm)

lemma allCells_nodup : allCells.Nodup := by decide

lemma pairwise_of_forall_ne {α : Type} {R : α → α → Prop} :
    ∀ (l : List α), l.Nodup → (∀ a ∈ l, ∀ b ∈ l, a ≠ b → R a b) → l.Pairwise R := by
  intro l
  induction l with
  | nil => intro _ _; exact List.Pairwise.nil
  | cons a rest ih =>
    intro hnd hf
    rcases List.nodup_cons.mp hnd with ⟨ha, hnd2⟩
    refine List.Pairwise.cons ?_ (ih hnd2 ?_)
    · intro b hb
      exact hf a (List.mem_cons_self _ _) b (List.mem_cons_of_mem _ hb)
        fun he => ha (he ▸ hb)
    · intro b hb c hc hne
      exact hf b (List.mem_cons_of_mem _ hb) c (List.mem_cons_of_mem _ hc) hne

lemma pairwise_allCells_iff (g : Game) :
    (allCells.Pairwise fun p q => ¬ conflict g p q) ↔ noDupsP g := by
  have hsym : Symmetric fun p q => ¬ conflict g p q :=
    fun a b hab hc => hab (conflict_symm g hc)
  constructor
  · intro h p q hne
    exact h.forall hsym (mem_allCells p) (mem_allCells q) hne
  · intro h
    exact pairwise_of_forall_ne allCells allCells_nodup fun a _ b _ hne => h a b hne

lemma solvedGo_eq_true_iff (g : Game) :
    ∀ (l : List (Fin 9 × Fin 9)) (R C S : Fin 9 → CellValue → Bool),
    g.solvedGo R C S l = true ↔
      ((∀ p ∈ l, ∃ d, g.board p.1 p.2 = some d ∧ R p.1 d = false ∧ C p.2 d = false ∧
          S (sqrs_ind p.1 p.2) d = false) ∧
        l.Pairwise fun p q => ¬ conflict g p q) := by
  intro l
  induction l with
  | nil => intro R C S; simp [Game.solvedGo]
  | cons p rest ih =>
    intro R C S
    rcases hb : g.board p.1 p.2 with _ | cv
    · simp only [Game.solvedGo, hb]
      constructor
      · intro h; cases h
      · rintro ⟨h1, _⟩
        obtain ⟨d, hd, _⟩ := h1 p (List.mem_cons_self _ _)
        rw [hb] at hd; cases hd
    · by_cases hflag : (R p.1 cv || C p.2 cv || S (sqrs_ind p.1 p.2) cv) = true
      · simp only [Game.solvedGo, hb, hflag, if_true]
        constructor
        · intro h; cases h
        · rintro ⟨h1, _⟩
          obtain ⟨d, hd, h2, h3, h4⟩ := h1 p (List.mem_cons_self _ _)
          rw [hb] at hd
          injection hd with hd; subst hd
          simp [h2, h3, h4] at hflag
      · have hsplit : ∀ q : Fin 9 × Fin 9,
            (∃ d, g.board q.1 q.2 = some d ∧ updFlag R p.1 cv q.1 d = false ∧
              updFlag C p.2 cv q.2 d = false ∧
              updFlag S (sqrs_ind p.1 p.2) cv (sqrs_ind q.1 q.2) d = false) ↔
            ((∃ d, g.board q.1 q.2 = some d ∧ R q.1 d = false ∧ C q.2 d = false ∧
              S (sqrs_ind q.1 q.2) d = false) ∧ ¬ conflict g p q) := by
          intro q
          constructor
          · rintro ⟨d, hd, h1, h2, h3⟩
            rw [updFlag_eq_false] at h1 h2 h3
            refine ⟨⟨d, hd, h1.2, h2.2, h3.2⟩, ?_⟩
            rintro ⟨hshare, d2, hp2, hq2⟩
            rw [hb] at hp2; injection hp2 with hp2; subst hp2
            rw [hd] at hq2; injection hq2 with hq2; subst hq2
            rcases hshare with h | h | h
            · exact h1.1 ⟨h.symm, rfl⟩
            · exact h2.1 ⟨h.symm, rfl⟩
            · exact h3.1 ⟨h.symm, rfl⟩
          · rintro ⟨⟨d, hd, h1, h2, h3⟩, hnc⟩
            refine ⟨d, hd, ?_, ?_, ?_⟩ <;> rw [updFlag_eq_false]
            · exact ⟨fun hcon => hnc ⟨Or.inl hcon.1.symm, cv, hb, by rw [hd, hcon.2]⟩, h1⟩
            · exact ⟨fun hcon => hnc ⟨Or.inr (Or.inl hcon.1.symm), cv, hb, by rw [hd, hcon.2]⟩,
                h2⟩
            · exact ⟨fun hcon => hnc ⟨Or.inr (Or.inr hcon.1.symm), cv, hb, by rw [hd, hcon.2]⟩,
                h3⟩
        have hflag3 : R p.1 cv = false ∧ C p.2 cv = false ∧
            S (sqrs_ind p.1 p.2) cv = false := by
          rcases h1 : R p.1 cv <;> rcases h2 : C p.2 cv <;>
            rcases h3 : S (sqrs_ind p.1 p.2) cv <;> simp_all
        simp only [Game.solvedGo, hb]
        rw [if_neg hflag, ih, List.pairwise_cons]
        constructor
        · rintro ⟨hOk, hpw⟩
          refine ⟨?_, ?_, hpw⟩
          · intro q hq
            rcases List.mem_cons.mp hq with rfl | hq2
            · exact ⟨cv, hb, hflag3.1, hflag3.2.1, hflag3.2.2⟩
            · exact ((hsplit q).mp (hOk q hq2)).1
          · intro q hq
            exact ((hsplit q).mp (hOk q hq)).2
        · rintro ⟨hOk, hnc, hpw⟩
          refine ⟨?_, hpw⟩
          intro q hq
          exact (hsplit q).mpr ⟨hOk q (List.mem_cons_of_mem _ hq), hnc q hq⟩

lemma validGo_eq_true_iff (g : Game) :
    ∀ (l : List (Fin 9 × Fin 9)) (R C S : Fin 9 → CellValue → Bool),
    g.validGo R C S l = true ↔
      ((∀ p ∈ l, ∀ d, g.board p.1 p.2 = some d → R p.1 d = false ∧ C p.2 d = false ∧
          S (sqrs_ind p.1 p.2) d = false) ∧
        l.Pairwise fun p q => ¬ conflict g p q) := by
  intro l
  induction l with
  | nil => intro R C S; simp [Game.validGo]
  | cons p rest ih =>
    intro R C S
    rcases hb : g.board p.1 p.2 with _ | cv
    · simp only [Game.validGo, hb]
      rw [ih, List.pairwise_cons]
      constructor
      · rintro ⟨hOk, hpw⟩
        refine ⟨?_, ?_, hpw⟩
        · intro q hq d hd
          rcases List.mem_cons.mp hq with rfl | hq2
          · rw [hb] at hd; cases hd
          · exact hOk q hq2 d hd
        · rintro q hq ⟨_, d2, hp2, _⟩
          rw [hb] at hp2; cases hp2
      · rintro ⟨hOk, _, hpw⟩
        exact ⟨fun q hq => hOk q (List.mem_cons_of_mem _ hq), hpw⟩
    · by_cases hflag : (R p.1 cv || C p.2 cv || S (sqrs_ind p.1 p.2) cv) = true
      · simp only [Game.validGo, hb, hflag, if_true]
        constructor
        · intro h; cases h
        · rintro ⟨h1, _⟩
          obtain ⟨h2, h3, h4⟩ := h1 p (List.mem_cons_self _ _) cv hb
          simp [h2, h3, h4] at hflag
      · have hsplit : ∀ q : Fin 9 × Fin 9,
            (∀ d, g.board q.1 q.2 = some d → updFlag R p.1 cv q.1 d = false ∧
              updFlag C p.2 cv q.2 d = false ∧
              updFlag S (sqrs_ind p.1 p.2) cv (sqrs_ind q.1 q.2) d = false) ↔
            ((∀ d, g.board q.1 q.2 = some d → R q.1 d = false ∧ C q.2 d = false ∧
              S (sqrs_ind q.1 q.2) d = false) ∧ ¬ conflict g p q) := by
          intro q
          constructor
          · intro hup
            refine ⟨fun d hd => ?_, ?_⟩
            · obtain ⟨h1, h2, h3⟩ := hup d hd
              rw [updFlag_eq_false] at h1 h2 h3
              exact ⟨h1.2, h2.2, h3.2⟩
            · rintro ⟨hshare, d2, hp2, hq2⟩
              rw [hb] at hp2; injection hp2 with hp2; subst hp2
              obtain ⟨h1, h2, h3⟩ := hup cv hq2
              rw [updFlag_eq_false] at h1 h2 h3
              rcases hshare with h | h | h
              · exact h1.1 ⟨h.symm, rfl⟩
              · exact h2.1 ⟨h.symm, rfl⟩
              · exact h3.1 ⟨h.symm, rfl⟩
          · rintro ⟨hOk, hnc⟩ d hd
            obtain ⟨h1, h2, h3⟩ := hOk d hd
            refine ⟨?_, ?_, ?_⟩ <;> rw [updFlag_eq_false]
            · exact ⟨fun hcon => hnc ⟨Or.inl hcon.1.symm, cv, hb, by rw [hd, hcon.2]⟩, h1⟩
            · exact ⟨fun hcon => hnc ⟨Or.inr (Or.inl hcon.1.symm), cv, hb,
                by rw [hd, hcon.2]⟩, h2⟩
            · exact ⟨fun hcon => hnc ⟨Or.inr (Or.inr hcon.1.symm), cv, hb,
                by rw [hd, hcon.2]⟩, h3⟩
        have hflag3 : R p.1 cv = false ∧ C p.2 cv = false ∧
            S (sqrs_ind p.1 p.2) cv = false := by
          rcases h1 : R p.1 cv <;> rcases h2 : C p.2 cv <;>
            rcases h3 : S (sqrs_ind p.1 p.2) cv <;> simp_all
        simp only [Game.validGo, hb]
        rw [if_neg hflag, ih, List.pairwise_cons]
        constructor
        · rintro ⟨hOk, hpw⟩
          refine ⟨?_, ?_, hpw⟩
          · intro q hq d hd
            rcases List.mem_cons.mp hq with rfl | hq2
            · rw [hb] at hd; injection hd with hd; subst hd
              exact ⟨hflag3.1, hflag3.2.1, hflag3.2.2⟩
            · exact ((hsplit q).mp (hOk q hq2)).1 d hd
          · intro q hq
            exact ((hsplit q).mp (hOk q hq)).2
        · rintro ⟨hOk, hnc, hpw⟩
          refine ⟨?_, hpw⟩
          intro q hq
          exact (hsplit q).mpr ⟨hOk q (List.mem_cons_of_mem _ hq), hnc q hq⟩

lemma solved_iff (g : Game) :
    g.solved = true ↔ (∀ y x, ∃ d, g.board y x = some d) ∧ noDupsP g := by
  unfold Game.solved
  rw [solvedGo_eq_true_iff, pairwise_allCells_iff]
  constructor
  · rintro ⟨h1, h2⟩
    refine ⟨fun y x => ?_, h2⟩
    obtain ⟨d, hd, _⟩ := h1 (y, x) (mem_allCells _)
    exact ⟨d, hd⟩
  · rintro ⟨h1, h2⟩
    refine ⟨fun p _ => ?_, h2⟩
    obtain ⟨d, hd⟩ := h1 p.1 p.2
    exact ⟨d, hd, rfl, rfl, rfl⟩

lemma is_valid_iff (g : Game) :
    g.is_valid = true ↔
      (∀ y x, g.board y x = none → ∃ i, g.cell_poss y x i = true) ∧ noDupsP g := by
  unfold Game.is_valid
  cases hf : allCells.find? (fun p => g.board p.1 p.2 == none && g.possEmpty p.1 p.2) with
  | none =>
    have hnone := List.find?_eq_none.mp hf
    simp only [hf]
    rw [validGo_eq_true_iff, pairwise_allCells_iff]
    constructor
    · rintro ⟨_, hpw⟩
      refine ⟨?_, hpw⟩
      intro y x hb
      rcases hany : ((List.finRange 9).any fun i => g.cell_poss y x i) with _ | _
      · exfalso
        apply hnone (y, x) (mem_allCells _)
        show (g.board (y, x).1 (y, x).2 == none && g.possEmpty (y, x).1 (y, x).2) = true
        simp [hb, Game.possEmpty, hany]
      · rw [List.any_eq_true] at hany
        obtain ⟨i, _, hi⟩ := hany
        exact ⟨i, hi⟩
    · rintro ⟨_, hnd⟩
      exact ⟨fun p _ d _ => ⟨rfl, rfl, rfl⟩, hnd⟩
  | some p =>
    simp only [hf]
    constructor
    · intro h; cases h
    · rintro ⟨h1, _⟩
      have hp := List.find?_some hf
      simp only [Bool.and_eq_true, beq_iff_eq, Game.possEmpty, Bool.not_eq_true',
        List.any_eq_false] at hp
      obtain ⟨i, hi⟩ := h1 p.1 p.2 hp.1
      exact absurd hi (hp.2 i (List.mem_finRange i))

lemma sqrCell_inj : ∀ s p1 p2 : Fin 9,
    sqrCellR s p1 = sqrCellR s p2 → sqrCellC s p1 = sqrCellC s p2 → p1 = p2 := by decide

lemma sqrs_ind_sqrCell : ∀ s p : Fin 9, sqrs_ind (sqrCellR s p) (sqrCellC s p) = s := by decide

/-- C6: `solved()` returns `true` iff every cell is assigned and no row,
column, or square holds the same digit twice; and on any board passing
`solved()`, every digit occurs in every row, every column, and every
square (so each group is a permutation of the nine digits). -/
theorem c6_solved_characterization (g : Game) :
    (g.solved = true ↔ (∀ y x, ∃ d, g.board y x = some d) ∧ noDupsP g) ∧
    (g.solved = true → ∀ d : CellValue,
      (∀ r, ∃ x, g.board r x = some d) ∧ (∀ c, ∃ y, g.board y c = some d) ∧
      (∀ s, ∃ p : Fin 9, g.board (sqrCellR s p) (sqrCellC s p) = some d)) := by
  refine ⟨solved_iff g, ?_⟩
  intro hs d
  obtain ⟨hall, hnd⟩ := (solved_iff g).mp hs
  have hbx : ∀ y x, g.board y x = some ((g.board y x).getD 0) := by
    intro y x
    obtain ⟨e, he⟩ := hall y x
    rw [he]; rfl
  refine ⟨fun r => ?_, fun c => ?_, fun s => ?_⟩
  · have hinj : Function.Injective fun x => (g.board r x).getD 0 := by
      intro x1 x2 he
      change (g.board r x1).getD 0 = (g.board r x2).getD 0 at he
      by_contra hne
      refine hnd (r, x1) (r, x2) (by simpa using hne) ⟨Or.inl rfl, (g.board r x1).getD 0,
        hbx r x1, ?_⟩
      show g.board r x2 = some ((g.board r x1).getD 0)
      rw [he]
      exact hbx r x2
    obtain ⟨x, hx⟩ := Finite.injective_iff_surjective.mp hinj d
    change (g.board r x).getD 0 = d at hx
    refine ⟨x, ?_⟩
    rw [hbx r x, hx]
  · have hinj : Function.Injective fun y => (g.board y c).getD 0 := by
      intro y1 y2 he
      change (g.board y1 c).getD 0 = (g.board y2 c).getD 0 at he
      by_contra hne
      refine hnd (y1, c) (y2, c) (by simpa using hne) ⟨Or.inr (Or.inl rfl),
        (g.board y1 c).getD 0, hbx y1 c, ?_⟩
      show g.board y2 c = some ((g.board y1 c).getD 0)
      rw [he]
      exact hbx y2 c
    obtain ⟨y, hy⟩ := Finite.injective_iff_surjective.mp hinj d
    change (g.board y c).getD 0 = d at hy
    refine ⟨y, ?_⟩
    rw [hbx y c, hy]
  · have hinj : Function.Injective fun p => (g.board (sqrCellR s p) (sqrCellC s p)).getD 0 := by
      intro p1 p2 he
      change (g.board (sqrCellR s p1) (sqrCellC s p1)).getD 0 =
        (g.board (sqrCellR s p2) (sqrCellC s p2)).getD 0 at he
      by_contra hne
      have hcells : (sqrCellR s p1, sqrCellC s p1) ≠ (sqrCellR s p2, sqrCellC s p2) := by
        intro hcc
        injection hcc with hr hc
        exact hne (sqrCell_inj s p1 p2 hr hc)
      refine hnd _ _ hcells ⟨Or.inr (Or.inr ?_),
        (g.board (sqrCellR s p1) (sqrCellC s p1)).getD 0, hbx _ _, ?_⟩
      · show sqrs_ind (sqrCellR s p1) (sqrCellC s p1) = sqrs_ind (sqrCellR s p2) (sqrCellC s p2)
        rw [sqrs_ind_sqrCell, sqrs_ind_sqrCell]
      · show g.board (sqrCellR s p2) (sqrCellC s p2) =
          some ((g.board (sqrCellR s p1) (sqrCellC s p1)).getD 0)
        rw [he]
        exact hbx _ _
    obtain ⟨p, hp⟩ := Finite.injective_iff_surjective.mp hinj d
    change (g.board (sqrCellR s p) (sqrCellC s p)).getD 0 = d at hp
    refine ⟨p, ?_⟩
    rw [hbx (sqrCellR s p) (sqrCellC s p), hp]

theorem c6_witness : gFull.solved = true := by
  exact (c6_solved_characterization gFull).1.mpr ⟨by decide, by decide⟩

/-! ## C5: `Game::new` is fatal on bad input or an invalid constructed state -/

lemma new_some_elim (numbers : Fin 9 → Fin 9 → Nat) (g : Game)
    (h : Game.new numbers = some g) :
    g.is_valid = true ∧
    g.board = (fun y x => CellValue.new (numbers y x)) ∧
    g.rows_flags = (fun y i => (List.finRange 9).any fun x =>
      CellValue.new (numbers y x) == some i) ∧
    g.cols_flags = (fun x i => (List.finRange 9).any fun y =>
      CellValue.new (numbers y x) == some i) ∧
    g.sqrs_flags = (fun s i => allCells.any fun p =>
      sqrs_ind p.1 p.2 == s && CellValue.new (numbers p.1 p.2) == some i) ∧
    g.cell_poss = (fun y x i =>
      match CellValue.new (numbers y x) with
      | some cv => decide (i = cv)
      | none =>
        !(((List.finRange 9).any fun x2 => CellValue.new (numbers y x2) == some i) ||
          ((List.finRange 9).any fun y2 => CellValue.new (numbers y2 x) == some i) ||
          (allCells.any fun p => sqrs_ind p.1 p.2 == sqrs_ind y x &&
            CellValue.new (numbers p.1 p.2) == some i))) := by
  simp only [Game.new] at h
  split at h
  · split at h
    · next hv =>
      injection h with h
      subst h
      exact ⟨hv, rfl, rfl, rfl, rfl, rfl⟩
    · cases h
  · cases h

lemma new_none_of_big (numbers : Fin 9 → Fin 9 → Nat) (y x : Fin 9)
    (hbig : 9 < numbers y x) : Game.new numbers = none := by
  have hguard : ((List.finRange 9).all fun y => (List.finRange 9).all fun x =>
      decide (numbers y x < 10)) = false := by
    rw [List.all_eq_false]
    refine ⟨y, List.mem_finRange y, ?_⟩
    rw [Bool.not_eq_true, List.all_eq_false]
    refine ⟨x, List.mem_finRange x, ?_⟩
    simp
    omega
  simp only [Game.new]
  split
  · next hall =>
    rw [hguard] at hall
    cases hall
  · rfl

/-- C5: construction is fatal (returns no `Game`) whenever an input entry
exceeds 9, and whenever the constructed state would fail the full validity
check — in particular a duplicated digit in a row never yields a state; a
returned state always satisfies `is_valid` and its board is the exact,
uncoerced image of the input (`0 ↦` unset, `n ↦` digit `n`). -/
theorem c5_new_fatal (numbers : Fin 9 → Fin 9 → Nat) :
    ((∃ y x, 9 < numbers y x) → Game.new numbers = none) ∧
    (∀ g, Game.new numbers = some g →
      g.is_valid = true ∧ ∀ y x, g.board y x = CellValue.new (numbers y x)) ∧
    (∀ (y x1 x2 : Fin 9) (d : CellValue), x1 ≠ x2 →
      CellValue.new (numbers y x1) = some d → CellValue.new (numbers y x2) = some d →
      Game.new numbers = none) := by
  refine ⟨?_, ?_, ?_⟩
  · rintro ⟨y, x, hbig⟩
    exact new_none_of_big numbers y x hbig
  · intro g h
    obtain ⟨hv, hb, _⟩ := new_some_elim numbers g h
    exact ⟨hv, fun y x => by rw [hb]⟩
  · intro y x1 x2 d hne h1 h2
    cases hng : Game.new numbers with
    | none => rfl
    | some g =>
      exfalso
      obtain ⟨hv, hb, _⟩ := new_some_elim numbers g hng
      have hnd := ((is_valid_iff g).mp hv).2
      refine hnd (y, x1) (y, x2) (by simpa using hne) ⟨Or.inl rfl, d, ?_, ?_⟩
      · show g.board y x1 = some d
        rw [hb]; exact h1
      · show g.board y x2 = some d
        rw [hb]; exact h2

theorem c5_witness :
    Game.new numsBad = none ∧ Game.new numsDup = none ∧
      gFull.is_valid = true ∧ gFull.board 0 0 = CellValue.new (gridFull 0 0) := by
  refine ⟨?_, ?_, ?_, ?_⟩
  · exact (c5_new_fatal numsBad).1 ⟨0, 0, by decide⟩
  · exact (c5_new_fatal numsDup).2.2 0 0 2 4 (by decide) (by decide) (by decide)
  · exact ((c5_new_fatal gridFull).2.1 gFull (by decide)).1
  · exact ((c5_new_fatal gridFull).2.1 gFull (by decide)).2 0 0

/-! ## Pointwise characterization of the mutation primitives -/

lemma Game.eq_of_fields {a b : Game} (h1 : a.board = b.board) (h2 : a.cell_poss = b.cell_poss)
    (h3 : a.cols_flags = b.cols_flags) (h4 : a.rows_flags = b.rows_flags)
    (h5 : a.sqrs_flags = b.sqrs_flags) : a = b := by
  cases a; cases b; simp_all

lemma sqrs_ind_eq_iff (y x row col : Fin 9) :
    sqrs_ind y x = sqrs_ind row col ↔ (y.val / 3 = row.val / 3 ∧ x.val / 3 = col.val / 3) := by
  rw [Fin.ext_iff]
  show 3 * (y.val / 3) + x.val / 3 = 3 * (row.val / 3) + col.val / 3 ↔ _
  omega

lemma update_poss_board (g : Game) (row col : Fin 9) :
    (g.update_poss_from_flags row col).board = g.board := rfl

lemma update_poss_rows_flags (g : Game) (row col : Fin 9) :
    (g.update_poss_from_flags row col).rows_flags = g.rows_flags := rfl

lemma update_poss_cols_flags (g : Game) (row col : Fin 9) :
    (g.update_poss_from_flags row col).cols_flags = g.cols_flags := rfl

lemma update_poss_sqrs_flags (g : Game) (row col : Fin 9) :
    (g.update_poss_from_flags row col).sqrs_flags = g.sqrs_flags := rfl

/-- The three loops of `update_poss_from_flags` amount to one pointwise
rule: every unassigned cell of the affected row, column, or square gets its
possibilities recomputed from the (unchanged) flags. -/
lemma update_poss_cell_poss (g : Game) (row col : Fin 9) :
    (g.update_poss_from_flags row col).cell_poss = fun y x i =>
      if (y = row ∨ x = col ∨ sqrs_ind y x = sqrs_ind row col) ∧ g.board y x = none then
        !(g.rows_flags y i || g.cols_flags x i || g.sqrs_flags (sqrs_ind y x) i)
      else g.cell_poss y x i := by
  funext y x i
  show (((g.update_poss_row row).update_poss_col row col).update_poss_sqr row col).cell_poss
    y x i = _
  simp only [Game.update_poss_row, Game.update_poss_col, Game.update_poss_sqr]
  have hsq := sqrs_ind_eq_iff y x row col
  split_ifs <;> first | rfl | tauto

lemma set_cell_of_already (g : Game) (row col : Fin 9) (cv : CellValue)
    (h : g.board row col = some cv) : g.set_cell row col cv = g := by
  simp [Game.set_cell, h]

lemma set_cell_board (g : Game) (row col : Fin 9) (cv : CellValue)
    (hne : g.board row col ≠ some cv) :
    (g.set_cell row col cv).board =
      fun y x => if y = row ∧ x = col then some cv else g.board y x := by
  simp only [Game.set_cell, if_neg hne]
  rfl

lemma set_cell_rows_flags (g : Game) (row col : Fin 9) (cv : CellValue)
    (hne : g.board row col ≠ some cv) :
    (g.set_cell row col cv).rows_flags =
      fun r i => if r = row ∧ i = cv then true else g.rows_flags r i := by
  simp only [Game.set_cell, if_neg hne]
  rfl

lemma set_cell_cols_flags (g : Game) (row col : Fin 9) (cv : CellValue)
    (hne : g.board row col ≠ some cv) :
    (g.set_cell row col cv).cols_flags =
      fun c i => if c = col ∧ i = cv then true else g.cols_flags c i := by
  simp only [Game.set_cell, if_neg hne]
  rfl

lemma set_cell_sqrs_flags (g : Game) (row col : Fin 9) (cv : CellValue)
    (hne : g.board row col ≠ some cv) :
    (g.set_cell row col cv).sqrs_flags =
      fun s i => if s = sqrs_ind row col ∧ i = cv then true else g.sqrs_flags s i := by
  simp only [Game.set_cell, if_neg hne]
  rfl

lemma set_cell_cell_poss (g : Game) (row col : Fin 9) (cv : CellValue)
    (hne : g.board row col ≠ some cv) :
    (g.set_cell row col cv).cell_poss = fun y x i =>
      if y = row ∧ x = col then decide (i = cv)
      else if (y = row ∨ x = col ∨ sqrs_ind y x = sqrs_ind row col) ∧ g.board y x = none then
        !((if y = row ∧ i = cv then true else g.rows_flags y i) ||
          (if x = col ∧ i = cv then true else g.cols_flags x i) ||
          (if sqrs_ind y x = sqrs_ind row col ∧ i = cv then true
            else g.sqrs_flags (sqrs_ind y x) i))
      else g.cell_poss y x i := by
  funext y x i
  simp only [Game.set_cell, if_neg hne]
  rw [update_poss_cell_poss]
  by_cases hyx : y = row ∧ x = col
  · obtain ⟨hy, hx⟩ := hyx
    subst hy; subst hx
    simp
  · simp only [hyx, if_false, if_neg hyx]

lemma unset_cell_of_none (g : Game) (row col : Fin 9) (h : g.board row col = none) :
    g.unset_cell row col = g := by
  simp [Game.unset_cell, h]

lemma unset_cell_board (g : Game) (row col : Fin 9) (cv : CellValue)
    (h : g.board row col = some cv) :
    (g.unset_cell row col).board =
      fun y x => if y = row ∧ x = col then none else g.board y x := by
  simp only [Game.unset_cell, h]
  rfl

lemma unset_cell_rows_flags (g : Game) (row col : Fin 9) (cv : CellValue)
    (h : g.board row col = some cv) :
    (g.unset_cell row col).rows_flags =
      fun r i => if r = row ∧ i = cv then false else g.rows_flags r i := by
  simp only [Game.unset_cell, h]
  rfl

lemma unset_cell_cols_flags (g : Game) (row col : Fin 9) (cv : CellValue)
    (h : g.board row col = some cv) :
    (g.unset_cell row col).cols_flags =
      fun c i => if c = col ∧ i = cv then false else g.cols_flags c i := by
  simp only [Game.unset_cell, h]
  rfl

lemma unset_cell_sqrs_flags (g : Game) (row col : Fin 9) (cv : CellValue)
    (h : g.board row col = some cv) :
    (g.unset_cell row col).sqrs_flags =
      fun s i => if s = sqrs_ind row col ∧ i = cv then false else g.sqrs_flags s i := by
  simp only [Game.unset_cell, h]
  rfl

lemma unset_cell_cell_poss (g : Game) (row col : Fin 9) (cv : CellValue)
    (h : g.board row col = some cv) :
    (g.unset_cell row col).cell_poss = fun y x i =>
      if (y = row ∨ x = col ∨ sqrs_ind y x = sqrs_ind row col) ∧
          ((y = row ∧ x = col) ∨ g.board y x = none) then
        !((if y = row ∧ i = cv then false else g.rows_flags y i) ||
          (if x = col ∧ i = cv then false else g.cols_flags x i) ||
          (if sqrs_ind y x = sqrs_ind row col ∧ i = cv then false
            else g.sqrs_flags (sqrs_ind y x) i))
      else g.cell_poss y x i := by
  funext y x i
  simp only [Game.unset_cell, h]
  rw [update_poss_cell_poss]
  by_cases hyx : y = row ∧ x = col
  · obtain ⟨hy, hx⟩ := hyx
    subst hy; subst hx
    simp
  · simp only [hyx, if_neg hyx]
    by_cases hb : g.board y x = none <;> simp [hyx, hb]

/-! ## C7: `unset_cell` inverts `set_cell` -/

/-- C7 (amended): on any state satisfying the possibility/flag
synchronization invariant, for an unassigned cell and a digit *still
possible for that cell*, `set_cell` followed by `unset_cell` restores the
entire state — board, all 81 possibility sets, and all flags. -/
theorem c7_set_unset_inverse (g : Game) (row col : Fin 9) (cv : CellValue)
    (hsync : possFlagSync g) (hnone : g.board row col = none)
    (hposs : g.cell_poss row col cv = true) :
    (g.set_cell row col cv).unset_cell row col = g := by
  have hne : g.board row col ≠ some cv := by rw [hnone]; simp
  have hflags := hsync row col hnone cv
  rw [hposs] at hflags
  have hRf : g.rows_flags row cv = false := by
    rcases h1 : g.rows_flags row cv with _ | _
    · rfl
    · rw [h1] at hflags; simp at hflags
  have hCf : g.cols_flags col cv = false := by
    rcases h1 : g.cols_flags col cv with _ | _
    · rfl
    · rw [h1] at hflags; simp at hflags
  have hSf : g.sqrs_flags (sqrs_ind row col) cv = false := by
    rcases h1 : g.sqrs_flags (sqrs_ind row col) cv with _ | _
    · rfl
    · rw [h1] at hflags; simp at hflags
  have hSb : (g.set_cell row col cv).board row col = some cv := by
    rw [set_cell_board g row col cv hne]; simp
  -- pointwise restoration of the three flag arrays
  have hFR : ∀ r i, (if r = row ∧ i = cv then false
      else (g.set_cell row col cv).rows_flags r i) = g.rows_flags r i := by
    intro r i
    rw [set_cell_rows_flags g row col cv hne]
    by_cases hri : r = row ∧ i = cv
    · obtain ⟨h1, h2⟩ := hri; subst h1; subst h2
      simp [hRf]
    · simp [hri]
  have hFC : ∀ c i, (if c = col ∧ i = cv then false
      else (g.set_cell row col cv).cols_flags c i) = g.cols_flags c i := by
    intro c i
    rw [set_cell_cols_flags g row col cv hne]
    by_cases hci : c = col ∧ i = cv
    · obtain ⟨h1, h2⟩ := hci; subst h1; subst h2
      simp [hCf]
    · simp [hci]
  have hFS : ∀ s i, (if s = sqrs_ind row col ∧ i = cv then false
      else (g.set_cell row col cv).sqrs_flags s i) = g.sqrs_flags s i := by
    intro s i
    rw [set_cell_sqrs_flags g row col cv hne]
    by_cases hsi : s = sqrs_ind row col ∧ i = cv
    · obtain ⟨h1, h2⟩ := hsi; subst h1; subst h2
      simp [hSf]
    · simp [hsi]
  refine Game.eq_of_fields ?_ ?_ ?_ ?_ ?_
  · rw [unset_cell_board _ row col cv hSb, set_cell_board g row col cv hne]
    funext y x
    by_cases hyx : y = row ∧ x = col
    · obtain ⟨h1, h2⟩ := hyx; subst h1; subst h2
      simp [hnone]
    · simp [hyx]
  · rw [unset_cell_cell_poss _ row col cv hSb]
    funext y x i
    simp only [set_cell_rows_flags g row col cv hne, set_cell_cols_flags g row col cv hne,
      set_cell_sqrs_flags g row col cv hne] at hFR hFC hFS ⊢
    rw [hFR y i, hFC x i, hFS (sqrs_ind y x) i]
    by_cases hyx : y = row ∧ x = col
    · obtain ⟨h1, h2⟩ := hyx; subst h1; subst h2
      have hguard : ((y = y ∨ x = x ∨ sqrs_ind y x = sqrs_ind y x) ∧
          ((y = y ∧ x = x) ∨ (g.set_cell y x cv).board y x = none)) := by
        exact ⟨Or.inl rfl, Or.inl ⟨rfl, rfl⟩⟩
      rw [if_pos hguard]
      exact (hsync y x hnone i).symm
    · rw [set_cell_board g row col cv hne]
      by_cases hb : g.board y x = none
      · by_cases haff : y = row ∨ x = col ∨ sqrs_ind y x = sqrs_ind row col
        · have hguard : ((y = row ∨ x = col ∨ sqrs_ind y x = sqrs_ind row col) ∧
              ((y = row ∧ x = col) ∨
                (if y = row ∧ x = col then some cv else g.board y x) = none)) := by
            refine ⟨haff, Or.inr ?_⟩
            rw [if_neg hyx]
            exact hb
          rw [if_pos hguard]
          exact (hsync y x hb i).symm
        · have hguard : ¬((y = row ∨ x = col ∨ sqrs_ind y x = sqrs_ind row col) ∧
              ((y = row ∧ x = col) ∨
                (if y = row ∧ x = col then some cv else g.board y x) = none)) := by
            intro hc
            exact haff hc.1
          rw [if_neg hguard]
          rw [set_cell_cell_poss g row col cv hne]
          simp only [if_neg hyx]
          rw [if_neg]
          intro hc
          exact haff hc.1
      · have hguard : ¬((y = row ∨ x = col ∨ sqrs_ind y x = sqrs_ind row col) ∧
            ((y = row ∧ x = col) ∨
              (if y = row ∧ x = col then some cv else g.board y x) = none)) := by
          rintro ⟨_, hc | hc⟩
          · exact hyx hc
          · rw [if_neg hyx] at hc
            exact hb hc
        rw [if_neg hguard]
        rw [set_cell_cell_poss g row col cv hne]
        simp only [if_neg hyx]
        rw [if_neg]
        rintro ⟨_, hc⟩
        exact hb hc
  · rw [unset_cell_cols_flags _ row col cv hSb]
    funext c i
    simp only [set_cell_cols_flags g row col cv hne] at hFC ⊢
    exact hFC c i
  · rw [unset_cell_rows_flags _ row col cv hSb]
    funext r i
    simp only [set_cell_rows_flags g row col cv hne] at hFR ⊢
    exact hFR r i
  · rw [unset_cell_sqrs_flags _ row col cv hSb]
    funext s i
    simp only [set_cell_sqrs_flags g row col cv hne] at hFS ⊢
    exact hFS s i

/-- C7 counterexample: `gOne` (a single 1 at `(0, 0)`) satisfies the full
solver invariant, cell `(0, 1)` is unassigned, yet setting digit 1 there
(allowed by the claim, which quantifies over *every* digit) and unsetting
it does not restore the state: the row-0 occupancy flag of digit 1 ends up
cleared even though `(0, 0)` still holds a 1. -/
theorem c7_counter :
    GameInv gOne ∧ gOne.board 0 1 = none ∧
    gOne.rows_flags 0 0 = true ∧
    ((gOne.set_cell 0 1 0).unset_cell 0 1).rows_flags 0 0 = false := by
  exact ⟨by decide, by decide, by decide, by decide⟩

theorem c7_witness :
    possFlagSync gEmpty ∧ gEmpty.board 4 4 = none ∧ gEmpty.cell_poss 4 4 6 = true ∧
    (gEmpty.set_cell 4 4 6).unset_cell 4 4 = gEmpty := by
  have h1 : possFlagSync gEmpty := by decide
  have h2 : gEmpty.board 4 4 = none := by decide
  have h3 : gEmpty.cell_poss 4 4 6 = true := by decide
  exact ⟨h1, h2, h3, c7_set_unset_inverse gEmpty 4 4 6 h1 h2 h3⟩

/-! ## C2: the possibility-set invariant under admissible mutation sequences -/

lemma digitPresent_iff_flags (g : Game) (hocc : flagsOcc g) (y x : Fin 9) (i : CellValue) :
    digitPresent g y x i ↔
      (g.rows_flags y i || g.cols_flags x i || g.sqrs_flags (sqrs_ind y x) i) = true := by
  obtain ⟨hR, hC, hS⟩ := hocc
  rw [Bool.or_eq_true, Bool.or_eq_true, hR, hC, hS]
  unfold digitPresent
  tauto

lemma inv_new (numbers : Fin 9 → Fin 9 → Nat) (g : Game)
    (h : Game.new numbers = some g) : GameInv g := by
  obtain ⟨hv, hb, hrf, hcf, hsf, hcp⟩ := new_some_elim numbers g h
  have hboard : ∀ y x, g.board y x = CellValue.new (numbers y x) := fun y x => by rw [hb]
  refine ⟨⟨?_, ?_, ?_⟩, ?_, ?_, ?_⟩
  · intro r i
    rw [hrf]
    simp only [List.any_eq_true, beq_iff_eq, List.mem_finRange, true_and]
    constructor
    · rintro ⟨x, hx⟩
      exact ⟨x, by rw [hboard r x, hx]⟩
    · rintro ⟨x, hx⟩
      exact ⟨x, by rw [← hboard r x, hx]⟩
  · intro c i
    rw [hcf]
    simp only [List.any_eq_true, beq_iff_eq, List.mem_finRange, true_and]
    constructor
    · rintro ⟨y, hy⟩
      exact ⟨y, by rw [hboard y c, hy]⟩
    · rintro ⟨y, hy⟩
      exact ⟨y, by rw [← hboard y c, hy]⟩
  · intro s i
    rw [hsf]
    simp only [List.any_eq_true, Bool.and_eq_true, beq_iff_eq]
    constructor
    · rintro ⟨p, _, hp1, hp2⟩
      exact ⟨p, hp1, by rw [hboard p.1 p.2, hp2]⟩
    · rintro ⟨p, hp1, hp2⟩
      exact ⟨p, mem_allCells p, hp1, by rw [← hboard p.1 p.2, hp2]⟩
  · intro y x d hd i
    rw [hcp]
    show (match CellValue.new (numbers y x) with
      | some cv => decide (i = cv)
      | none => _) = decide (i = d)
    rw [hboard y x] at hd
    rw [hd]
  · intro y x hnone i
    rw [hboard y x] at hnone
    rw [hcp]
    show (match CellValue.new (numbers y x) with
      | some cv => decide (i = cv)
      | none =>
        !(((List.finRange 9).any fun x2 => CellValue.new (numbers y x2) == some i) ||
          ((List.finRange 9).any fun y2 => CellValue.new (numbers y2 x) == some i) ||
          (allCells.any fun p => sqrs_ind p.1 p.2 == sqrs_ind y x &&
            CellValue.new (numbers p.1 p.2) == some i))) = _
    rw [hnone, hrf, hcf, hsf]
  · exact ((is_valid_iff g).mp hv).2

lemma inv_set (g : Game) (row col : Fin 9) (cv : CellValue)
    (hInv : GameInv g) (hposs : g.cell_poss row col cv = true) :
    GameInv (g.set_cell row col cv) := by
  obtain ⟨⟨hOR, hOC, hOS⟩, hSing, hSync, hND⟩ := hInv
  rcases hcase : g.board row col with _ | d
  case some =>
    have h2 := hSing row col d hcase cv
    rw [hposs] at h2
    have hdc : cv = d := by
      rcases h3 : decide (cv = d) with _ | _
      · rw [h3] at h2; cases h2
      · exact of_decide_eq_true h3
    subst hdc
    rw [set_cell_of_already g row col cv hcase]
    exact ⟨⟨hOR, hOC, hOS⟩, hSing, hSync, hND⟩
  case none =>
  have hne : g.board row col ≠ some cv := by rw [hcase]; simp
  have hSB : ∀ y x, (g.set_cell row col cv).board y x =
      if y = row ∧ x = col then some cv else g.board y x := by
    intro y x; rw [set_cell_board g row col cv hne]
  have hSR : ∀ r i, (g.set_cell row col cv).rows_flags r i =
      if r = row ∧ i = cv then true else g.rows_flags r i := by
    intro r i; rw [set_cell_rows_flags g row col cv hne]
  have hSC : ∀ c i, (g.set_cell row col cv).cols_flags c i =
      if c = col ∧ i = cv then true else g.cols_flags c i := by
    intro c i; rw [set_cell_cols_flags g row col cv hne]
  have hSS : ∀ s i, (g.set_cell row col cv).sqrs_flags s i =
      if s = sqrs_ind row col ∧ i = cv then true else g.sqrs_flags s i := by
    intro s i; rw [set_cell_sqrs_flags g row col cv hne]
  have hSP : ∀ y x i, (g.set_cell row col cv).cell_poss y x i =
      (if y = row ∧ x = col then decide (i = cv)
      else if (y = row ∨ x = col ∨ sqrs_ind y x = sqrs_ind row col) ∧ g.board y x = none then
        !((if y = row ∧ i = cv then true else g.rows_flags y i) ||
          (if x = col ∧ i = cv then true else g.cols_flags x i) ||
          (if sqrs_ind y x = sqrs_ind row col ∧ i = cv then true
            else g.sqrs_flags (sqrs_ind y x) i))
      else g.cell_poss y x i) := by
    intro y x i; rw [set_cell_cell_poss g row col cv hne]
  have hflags := hSync row col hcase cv
  rw [hposs] at hflags
  have hRf : g.rows_flags row cv = false := by
    rcases h1 : g.rows_flags row cv with _ | _
    · rfl
    · rw [h1] at hflags; simp at hflags
  have hCf : g.cols_flags col cv = false := by
    rcases h1 : g.cols_flags col cv with _ | _
    · rfl
    · rw [h1] at hflags; simp at hflags
  have hSf : g.sqrs_flags (sqrs_ind row col) cv = false := by
    rcases h1 : g.sqrs_flags (sqrs_ind row col) cv with _ | _
    · rfl
    · rw [h1] at hflags; simp at hflags
  have hNoRow : ∀ x2, g.board row x2 ≠ some cv := by
    intro x2 hx2
    have h4 := (hOR row cv).mpr ⟨x2, hx2⟩
    rw [hRf] at h4; cases h4
  have hNoCol : ∀ y2, g.board y2 col ≠ some cv := by
    intro y2 hy2
    have h4 := (hOC col cv).mpr ⟨y2, hy2⟩
    rw [hCf] at h4; cases h4
  have hNoSqr : ∀ p : Fin 9 × Fin 9, sqrs_ind p.1 p.2 = sqrs_ind row col →
      g.board p.1 p.2 ≠ some cv := by
    intro p hp hbp
    have h4 := (hOS (sqrs_ind row col) cv).mpr ⟨p, hp, hbp⟩
    rw [hSf] at h4; cases h4
  refine ⟨⟨?_, ?_, ?_⟩, ?_, ?_, ?_⟩
  · intro r i
    simp only [hSR, hSB]
    by_cases hri : r = row ∧ i = cv
    · obtain ⟨h1, h2⟩ := hri; subst h1; subst h2
      simp only [and_self, if_true, true_iff]
      exact ⟨col, by simp⟩
    · rw [if_neg hri, hOR r i]
      constructor
      · rintro ⟨x2, hx2⟩
        refine ⟨x2, ?_⟩
        rw [if_neg, hx2]
        rintro ⟨hr2, hx2c⟩
        subst hr2; subst hx2c
        rw [hcase] at hx2; cases hx2
      · rintro ⟨x2, hx2⟩
        by_cases hrx : r = row ∧ x2 = col
        · rw [if_pos hrx] at hx2
          injection hx2 with hx2
          exact absurd ⟨hrx.1, hx2.symm⟩ hri
        · rw [if_neg hrx] at hx2
          exact ⟨x2, hx2⟩
  · intro c i
    simp only [hSC, hSB]
    by_cases hci : c = col ∧ i = cv
    · obtain ⟨h1, h2⟩ := hci; subst h1; subst h2
      simp only [and_self, if_true, true_iff]
      exact ⟨row, by simp⟩
    · rw [if_neg hci, hOC c i]
      constructor
      · rintro ⟨y2, hy2⟩
        refine ⟨y2, ?_⟩
        rw [if_neg, hy2]
        rintro ⟨hy2r, hc2⟩
        subst hy2r; subst hc2
        rw [hcase] at hy2; cases hy2
      · rintro ⟨y2, hy2⟩
        by_cases hyc : y2 = row ∧ c = col
        · rw [if_pos hyc] at hy2
          injection hy2 with hy2
          exact absurd ⟨hyc.2, hy2.symm⟩ hci
        · rw [if_neg hyc] at hy2
          exact ⟨y2, hy2⟩
  · intro s i
    simp only [hSS, hSB]
    by_cases hsi : s = sqrs_ind row col ∧ i = cv
    · obtain ⟨h1, h2⟩ := hsi; subst h1; subst h2
      simp only [and_self, if_true, true_iff]
      exact ⟨(row, col), rfl, by simp⟩
    · rw [if_neg hsi, hOS s i]
      constructor
      · rintro ⟨p, hp1, hp2⟩
        refine ⟨p, hp1, ?_⟩
        rw [if_neg, hp2]
        rintro ⟨h1, h2⟩
        rw [h1, h2, hcase] at hp2; cases hp2
      · rintro ⟨p, hp1, hp2⟩
        by_cases hpc : p.1 = row ∧ p.2 = col
        · rw [if_pos hpc] at hp2
          injection hp2 with hp2
          refine absurd ⟨?_, hp2.symm⟩ hsi
          rw [← hp1, hpc.1, hpc.2]
        · rw [if_neg hpc] at hp2
          exact ⟨p, hp1, hp2⟩
  · intro y x d2 hd2 i
    rw [hSB] at hd2
    rw [hSP]
    by_cases hyx : y = row ∧ x = col
    · obtain ⟨h1, h2⟩ := hyx; subst h1; subst h2
      rw [if_pos ⟨rfl, rfl⟩] at hd2
      injection hd2 with hd2
      subst hd2
      rw [if_pos ⟨rfl, rfl⟩]
    · rw [if_neg hyx] at hd2
      rw [if_neg hyx, if_neg, hSing y x d2 hd2 i]
      rintro ⟨_, hb2⟩
      rw [hd2] at hb2; cases hb2
  · intro y x hnone i
    rw [hSB] at hnone
    by_cases hyx : y = row ∧ x = col
    · rw [if_pos hyx] at hnone; cases hnone
    · rw [if_neg hyx] at hnone
      rw [hSP, if_neg hyx, hSR, hSC, hSS]
      by_cases haff : y = row ∨ x = col ∨ sqrs_ind y x = sqrs_ind row col
      · rw [if_pos ⟨haff, hnone⟩]
      · rw [if_neg (fun hc => haff hc.1), hSync y x hnone i]
        push_neg at haff
        obtain ⟨ha1, ha2, ha3⟩ := haff
        rw [if_neg (fun hc => ha1 hc.1), if_neg (fun hc => ha2 hc.1),
          if_neg (fun hc => ha3 hc.1)]
  · intro p q hpq hconf
    obtain ⟨hshare, d2, hp2, hq2⟩ := hconf
    rw [hSB] at hp2 hq2
    by_cases hpc : p.1 = row ∧ p.2 = col
    · rw [if_pos hpc] at hp2
      injection hp2 with hp2
      subst hp2
      by_cases hqc : q.1 = row ∧ q.2 = col
      · exact hpq (Prod.ext (hpc.1.trans hqc.1.symm) (hpc.2.trans hqc.2.symm))
      · rw [if_neg hqc] at hq2
        rcases hshare with h | h | h
        · refine hNoRow q.2 ?_
          rw [← h, hpc.1] at hq2
          exact hq2
        · refine hNoCol q.1 ?_
          rw [← h, hpc.2] at hq2
          exact hq2
        · refine hNoSqr q ?_ hq2
          rw [← h, hpc.1, hpc.2]
    · by_cases hqc : q.1 = row ∧ q.2 = col
      · rw [if_pos hqc] at hq2
        injection hq2 with hq2
        subst hq2
        rw [if_neg hpc] at hp2
        rcases hshare with h | h | h
        · refine hNoRow p.2 ?_
          rw [h, hqc.1] at hp2
          exact hp2
        · refine hNoCol p.1 ?_
          rw [h, hqc.2] at hp2
          exact hp2
        · refine hNoSqr p ?_ hp2
          rw [h, hqc.1, hqc.2]
      · rw [if_neg hpc] at hp2
        rw [if_neg hqc] at hq2
        exact hND p q hpq ⟨hshare, d2, hp2, hq2⟩

lemma inv_unset (g : Game) (row col : Fin 9) (hInv : GameInv g) :
    GameInv (g.unset_cell row col) := by
  obtain ⟨⟨hOR, hOC, hOS⟩, hSing, hSync, hND⟩ := hInv
  rcases hcase : g.board row col with _ | d
  case none =>
    rw [unset_cell_of_none g row col hcase]
    exact ⟨⟨hOR, hOC, hOS⟩, hSing, hSync, hND⟩
  case some =>
  have hUB : ∀ y x, (g.unset_cell row col).board y x =
      if y = row ∧ x = col then none else g.board y x := by
    intro y x; rw [unset_cell_board g row col d hcase]
  have hUR : ∀ r i, (g.unset_cell row col).rows_flags r i =
      if r = row ∧ i = d then false else g.rows_flags r i := by
    intro r i; rw [unset_cell_rows_flags g row col d hcase]
  have hUC : ∀ c i, (g.unset_cell row col).cols_flags c i =
      if c = col ∧ i = d then false else g.cols_flags c i := by
    intro c i; rw [unset_cell_cols_flags g row col d hcase]
  have hUS : ∀ s i, (g.unset_cell row col).sqrs_flags s i =
      if s = sqrs_ind row col ∧ i = d then false else g.sqrs_flags s i := by
    intro s i; rw [unset_cell_sqrs_flags g row col d hcase]
  have hUP : ∀ y x i, (g.unset_cell row col).cell_poss y x i =
      (if (y = row ∨ x = col ∨ sqrs_ind y x = sqrs_ind row col) ∧
          ((y = row ∧ x = col) ∨ g.board y x = none) then
        !((if y = row ∧ i = d then false else g.rows_flags y i) ||
          (if x = col ∧ i = d then false else g.cols_flags x i) ||
          (if sqrs_ind y x = sqrs_ind row col ∧ i = d then false
            else g.sqrs_flags (sqrs_ind y x) i))
      else g.cell_poss y x i) := by
    intro y x i; rw [unset_cell_cell_poss g row col d hcase]
  have hUniqueRow : ∀ x2, x2 ≠ col → g.board row x2 ≠ some d := by
    intro x2 hx2 hbx
    exact hND (row, x2) (row, col) (by simp [hx2]) ⟨Or.inl rfl, d, hbx, hcase⟩
  have hUniqueCol : ∀ y2, y2 ≠ row → g.board y2 col ≠ some d := by
    intro y2 hy2 hby
    exact hND (y2, col) (row, col) (by simp [hy2]) ⟨Or.inr (Or.inl rfl), d, hby, hcase⟩
  have hUniqueSqr : ∀ p : Fin 9 × Fin 9, ¬(p.1 = row ∧ p.2 = col) →
      sqrs_ind p.1 p.2 = sqrs_ind row col → g.board p.1 p.2 ≠ some d := by
    intro p hp hps hbp
    refine hND p (row, col) ?_ ⟨Or.inr (Or.inr hps), d, hbp, hcase⟩
    intro he
    exact hp ⟨by rw [he], by rw [he]⟩
  refine ⟨⟨?_, ?_, ?_⟩, ?_, ?_, ?_⟩
  · intro r i
    simp only [hUR, hUB]
    by_cases hri : r = row ∧ i = d
    · obtain ⟨h1, h2⟩ := hri; subst h1; subst h2
      rw [if_pos ⟨rfl, rfl⟩]
      simp only [Bool.false_eq_true, false_iff]
      rintro ⟨x2, hx2⟩
      by_cases hx2c : x2 = col
      · simp [hx2c] at hx2
      · rw [if_neg (fun hc => hx2c hc.2)] at hx2
        exact hUniqueRow x2 hx2c hx2
    · rw [if_neg hri, hOR r i]
      constructor
      · rintro ⟨x2, hx2⟩
        refine ⟨x2, ?_⟩
        rw [if_neg, hx2]
        rintro ⟨h1, h2⟩
        subst h1; subst h2
        rw [hcase] at hx2
        injection hx2 with hx2
        exact hri ⟨rfl, hx2.symm⟩
      · rintro ⟨x2, hx2⟩
        by_cases hrx : r = row ∧ x2 = col
        · rw [if_pos hrx] at hx2; cases hx2
        · rw [if_neg hrx] at hx2
          exact ⟨x2, hx2⟩
  · intro c i
    simp only [hUC, hUB]
    by_cases hci : c = col ∧ i = d
    · obtain ⟨h1, h2⟩ := hci; subst h1; subst h2
      rw [if_pos ⟨rfl, rfl⟩]
      simp only [Bool.false_eq_true, false_iff]
      rintro ⟨y2, hy2⟩
      by_cases hy2r : y2 = row
      · simp [hy2r] at hy2
      · rw [if_neg (fun hc => hy2r hc.1)] at hy2
        exact hUniqueCol y2 hy2r hy2
    · rw [if_neg hci, hOC c i]
      constructor
      · rintro ⟨y2, hy2⟩
        refine ⟨y2, ?_⟩
        rw [if_neg, hy2]
        rintro ⟨h1, h2⟩
        subst h1; subst h2
        rw [hcase] at hy2
        injection hy2 with hy2
        exact hci ⟨rfl, hy2.symm⟩
      · rintro ⟨y2, hy2⟩
        by_cases hyc : y2 = row ∧ c = col
        · rw [if_pos hyc] at hy2; cases hy2
        · rw [if_neg hyc] at hy2
          exact ⟨y2, hy2⟩
  · intro s i
    simp only [hUS, hUB]
    by_cases hsi : s = sqrs_ind row col ∧ i = d
    · obtain ⟨h1, h2⟩ := hsi; subst h1; subst h2
      rw [if_pos ⟨rfl, rfl⟩]
      simp only [Bool.false_eq_true, false_iff]
      rintro ⟨p, hp1, hp2⟩
      by_cases hpc : p.1 = row ∧ p.2 = col
      · rw [if_pos hpc] at hp2; cases hp2
      · rw [if_neg hpc] at hp2
        exact hUniqueSqr p hpc hp1 hp2
    · rw [if_neg hsi, hOS s i]
      constructor
      · rintro ⟨p, hp1, hp2⟩
        refine ⟨p, hp1, ?_⟩
        rw [if_neg, hp2]
        rintro ⟨h1, h2⟩
        rw [h1, h2, hcase] at hp2
        injection hp2 with hp2
        refine hsi ⟨?_, hp2.symm⟩
        rw [← hp1, h1, h2]
      · rintro ⟨p, hp1, hp2⟩
        by_cases hpc : p.1 = row ∧ p.2 = col
        · rw [if_pos hpc] at hp2; cases hp2
        · rw [if_neg hpc] at hp2
          exact ⟨p, hp1, hp2⟩
  · intro y x d2 hd2 i
    rw [hUB] at hd2
    by_cases hyx : y = row ∧ x = col
    · rw [if_pos hyx] at hd2; cases hd2
    · rw [if_neg hyx] at hd2
      rw [hUP, if_neg, hSing y x d2 hd2 i]
      rintro ⟨_, hor⟩
      rcases hor with h | h
      · exact hyx h
      · rw [hd2] at h; cases h
  · intro y x hnone i
    rw [hUB] at hnone
    by_cases hyx : y = row ∧ x = col
    · obtain ⟨h1, h2⟩ := hyx; subst h1; subst h2
      rw [hUP, hUR, hUC, hUS, if_pos ⟨Or.inl rfl, Or.inl ⟨rfl, rfl⟩⟩]
    · rw [if_neg hyx] at hnone
      rw [hUP, hUR, hUC, hUS]
      by_cases haff : y = row ∨ x = col ∨ sqrs_ind y x = sqrs_ind row col
      · rw [if_pos ⟨haff, Or.inr hnone⟩]
      · rw [if_neg (fun hc => haff hc.1), hSync y x hnone i]
        push_neg at haff
        obtain ⟨ha1, ha2, ha3⟩ := haff
        rw [if_neg (fun hc => ha1 hc.1), if_neg (fun hc => ha2 hc.1),
          if_neg (fun hc => ha3 hc.1)]
  · intro p q hpq hconf
    obtain ⟨hshare, d2, hp2, hq2⟩ := hconf
    rw [hUB] at hp2 hq2
    by_cases hpc : p.1 = row ∧ p.2 = col
    · rw [if_pos hpc] at hp2; cases hp2
    · rw [if_neg hpc] at hp2
      by_cases hqc : q.1 = row ∧ q.2 = col
      · rw [if_pos hqc] at hq2; cases hq2
      · rw [if_neg hqc] at hq2
        exact hND p q hpq ⟨hshare, d2, hp2, hq2⟩

lemma inv_applyOps (g : Game) (ops : List SOp) (hInv : GameInv g)
    (hadm : admissibleOps g ops = true) : GameInv (applyOps g ops) := by
  induction ops generalizing g with
  | nil => exact hInv
  | cons op rest ih =>
    cases op with
    | set r c v =>
      rw [admissibleOps, Bool.and_eq_true] at hadm
      exact ih (g.set_cell r c v) (inv_set g r c v hInv hadm.1) hadm.2
    | unset r c =>
      rw [admissibleOps] at hadm
      exact ih (g.unset_cell r c) (inv_unset g r c hInv) hadm

lemma inv_possSpecHolds (g : Game) (hInv : GameInv g) : possSpecHolds g := by
  obtain ⟨hOcc, hSing, hSync, _⟩ := hInv
  intro y x
  constructor
  · intro hnone i
    rw [hSync y x hnone i, digitPresent_iff_flags g hOcc y x i]
    rcases hb : (g.rows_flags y i || g.cols_flags x i || g.sqrs_flags (sqrs_ind y x) i)
      with _ | _
    · simp
    · simp
  · intro d hd i
    rw [hSing y x d hd i]
    constructor
    · intro h
      exact of_decide_eq_true h
    · intro h
      rw [h]
      simp

/-- C2 (amended): for every state constructed by `Game::new` and every
admissible sequence of `set_cell`/`unset_cell` calls — one in which each
`set_cell` assigns a digit still possible for its cell, which is how the
solver always calls it — the resulting state satisfies the spec's
possibility invariant: every unassigned cell's possibility set is exactly
the complement of the digits present among the assigned cells of its row,
column, and square, and every assigned cell's possibility set is the
singleton of its own digit. -/
theorem c2_poss_invariant (numbers : Fin 9 → Fin 9 → Nat) (g : Game) (ops : List SOp)
    (hnew : Game.new numbers = some g) (hadm : admissibleOps g ops = true) :
    possSpecHolds (applyOps g ops) :=
  inv_possSpecHolds _ (inv_applyOps g ops (inv_new numbers g hnew) hadm)

/-- C2 counterexample: the claim as stated quantifies over *any* sequence
of `set_cell`/`unset_cell` calls.  Starting from the empty constructed
state, calling `set_cell(0,0,1)` and then `set_cell(0,0,2)` (overwriting an
assigned cell) leaves the digit-1 occupancy flags stale: cell `(0,1)` is
unassigned and digit 1 appears nowhere on the board, yet 1 is marked
impossible for it — its possibility set is not the complement of the
digits present among its peers. -/
theorem c2_counter :
    Game.new numsEmpty = some gEmpty ∧
    (applyOps gEmpty opsOverwrite).board 0 1 = none ∧
    ¬ digitPresent (applyOps gEmpty opsOverwrite) 0 1 0 ∧
    (applyOps gEmpty opsOverwrite).cell_poss 0 1 0 = false := by
  exact ⟨by decide, by decide, by decide, by decide⟩

theorem c2_witness :
    admissibleOps gEmpty opsGood = true ∧
    (applyOps gEmpty opsGood).cell_poss 1 1 4 = true := by
  have hadm : admissibleOps gEmpty opsGood = true := by decide
  have h := c2_poss_invariant numsEmpty gEmpty opsGood (by decide) hadm
  exact ⟨hadm, ((h 1 1).2 4 (by decide) 4).mpr rfl⟩
